import Mathlib

/-!
# SDL2-Minesweeper: board model, reveal engine and session timer

A shallow embedding of `src/src/Game.cpp` and `src/src/Cell.cpp`.

Conventions of the embedding:

* a C++ `int` is an `Int`; signed arithmetic is not wrapped (signed overflow is
  undefined behaviour in C++), the theorems that depend on it carry the bounds
  that keep every value inside the 32-bit range;
* a `std::size_t` is a `Nat` below `2^64`; unsigned arithmetic wraps, see
  `szAdd`, `szSub`, `szMul`, and an `int` converted to `std::size_t` goes
  through `toSizeT`;
* `board_[i]` is `Game.cell g i`; the fields of rendering, audio, fonts and
  widgets (textures, buttons, window) are not part of the model;
* every source of outside input is an explicit argument: the values returned by
  the random number generator (`rnd`), the pointer position (`mx`, `my`).
-/

namespace Minesweeper

/-! ## Machine integers -/

/-- Number of values of a 64-bit `std::size_t`. -/
def SIZE_MOD : Nat := 18446744073709551616

/-- Conversion of an `int` to `std::size_t` (value modulo `2^64`). -/
def toSizeT (n : Int) : Nat := (n % 18446744073709551616).toNat

/-- Unsigned addition on `std::size_t`. -/
def szAdd (a b : Nat) : Nat := (a + b) % SIZE_MOD

/-- Unsigned subtraction on `std::size_t` (wraps below zero). -/
def szSub (a b : Nat) : Nat := (a + (SIZE_MOD - b % SIZE_MOD)) % SIZE_MOD

/-- Unsigned multiplication on `std::size_t`. -/
def szMul (a b : Nat) : Nat := (a * b) % SIZE_MOD

/-! ## Data model (`Cell.hpp`, `Game.hpp`) -/

/-- The SDL rectangle: position and size in pixels. -/
structure SDL_Rect where
  x : Int
  y : Int
  w : Int
  h : Int
deriving DecidableEq, Repr

/-- The fields of `class Cell` that carry game state. -/
structure Cell where
  rect_ : SDL_Rect
  render_cell_ : Bool
  flag_ : Bool
  mine_ : Bool
  mine_exploded_ : Bool
  uncovered_ : Bool
  mines_in_vicinity_ : Int
deriving DecidableEq, Repr

/-- The constructor `Cell::Cell(Game*)`; the rectangle is assigned later by `GenerateBoard`. -/
def Cell.new : Cell :=
  { rect_ := ⟨0, 0, 0, 0⟩, render_cell_ := true, flag_ := false, mine_ := false,
    mine_exploded_ := false, uncovered_ := false, mines_in_vicinity_ := 0 }

/-- The method `Cell::Uncover`. -/
def Cell.Uncover (c : Cell) : Cell :=
  { c with render_cell_ := false, uncovered_ := true }

/-- The enumeration `BoardSize`. -/
inductive BoardSize where
  | SMALL
  | MEDIUM
  | LARGE
deriving DecidableEq, Repr

/-- The fields of `class Game` that carry game state. -/
structure Game where
  mouse_pressed_down_ : Bool
  game_started_ : Bool
  mines_left_ : Int
  seconds_elapsed_ : Int
  ticks_elapsed_ : Int
  game_over_ : Bool
  board_size_ : BoardSize
  info_viewport_ : SDL_Rect
  board_viewport_ : SDL_Rect
  board_ : List Cell
deriving DecidableEq, Repr

/-- Read access `board_[i]`. -/
def Game.cell (g : Game) (i : Nat) : Cell := g.board_.getD i Cell.new

/-- Write access `board_[i] = f(board_[i])`. -/
def Game.modifyCell (g : Game) (i : Nat) (f : Cell → Cell) : Game :=
  { g with board_ := g.board_.set i (f (g.cell i)) }

/-! ## Board generation and geometry -/

/-- The second loop of `Game::GenerateBoard`: walks the cells with the running
index `i` and the running pixel position `(rect_x, rect_y)`. -/
def layoutLoop (bw : Int) : List Cell → Nat → Int → Int → List Cell
  | [], _, _, _ => []
  | c :: cs, i, rect_x, rect_y =>
    let wrap : Bool := decide (i ≠ 0) && decide (szMul i 32 % toSizeT bw = 0)
    let rect_y1 := if wrap then rect_y + 32 else rect_y
    let rect_x1 := if wrap then 0 else rect_x
    { c with rect_ := ⟨rect_x1, rect_y1, 32, 32⟩ } ::
      layoutLoop bw cs (i + 1) (rect_x1 + 32) rect_y1

/-- The method `Game::GenerateBoard`. -/
def GenerateBoard (g : Game) : Game :=
  let count : Int := Int.tdiv g.board_viewport_.w 32 * Int.tdiv g.board_viewport_.h 32
  let fresh : List Cell := List.replicate count.toNat Cell.new
  { g with board_ := layoutLoop g.board_viewport_.w fresh 0 0 0 }

/-- The method `Game::GetNeighboursIndices`. -/
def GetNeighboursIndices (g : Game) (cell_index : Nat) : List Nat :=
  let cell_rect := (g.cell cell_index).rect_
  let left_cell_available : Bool := decide (cell_rect.x - 32 ≥ 0)
  let right_cell_available : Bool := decide (cell_rect.x + 32 < g.board_viewport_.w)
  let upper_cell_available : Bool := decide (cell_rect.y - 32 ≥ 0)
  let lower_cell_available : Bool := decide (cell_rect.y + 32 < g.board_viewport_.h)
  let row : Nat := toSizeT (Int.tdiv g.board_viewport_.w 32)
  (if left_cell_available then [szSub cell_index 1] else []) ++
  (if right_cell_available then [szAdd cell_index 1] else []) ++
  (if upper_cell_available then [szSub cell_index row] else []) ++
  (if lower_cell_available then [szAdd cell_index row] else []) ++
  (if left_cell_available && upper_cell_available then [szSub (szSub cell_index row) 1] else []) ++
  (if left_cell_available && lower_cell_available then [szSub (szAdd cell_index row) 1] else []) ++
  (if right_cell_available && upper_cell_available then [szAdd (szSub cell_index row) 1] else []) ++
  (if right_cell_available && lower_cell_available then [szAdd (szAdd cell_index row) 1] else [])

/-- The method `Game::GetMousePositionIndex` at the pointer position `(mx, my)`;
`none` is the `false` return. -/
def GetMousePositionIndex (g : Game) (mx my : Int) : Option Nat :=
  if mx < 0 ∨ mx > g.board_viewport_.w ∨
      my - g.info_viewport_.h < 0 ∨ my - g.info_viewport_.h > g.board_viewport_.h then
    none
  else
    let x : Nat := toSizeT mx / 32
    let y : Nat := toSizeT (my - g.info_viewport_.h) / 32
    some (szAdd (szMul y (toSizeT g.board_viewport_.w / 32)) x)

/-! ## Mine placement -/

/-- The redraw loop `while (board_[mine_index].mine_)` of `SetBoardCellFlags`:
consumes generator outputs until one names a cell without a mine. `none` when
the outputs run out first. -/
def drawFreeCell (g : Game) : List Nat → Option (Nat × List Nat)
  | [] => none
  | mine_index :: rnd =>
    if (g.cell mine_index).mine_ then drawFreeCell g rnd else some (mine_index, rnd)

/-- The first loop of `SetBoardCellFlags`, `count` iterations left. -/
def placeMines : Nat → Game → List Nat → Option Game
  | 0, g, _ => some g
  | count + 1, g, rnd =>
    match drawFreeCell g rnd with
    | none => none
    | some (mine_index, rest) =>
      placeMines count (g.modifyCell mine_index (fun c => { c with mine_ := true })) rest

/-- The body of the inner loop of `SetBoardCellFlags` for cell `i` and one neighbour. -/
def countNeighbour (i : Nat) (g : Game) (neighbour_index : Nat) : Game :=
  if (g.cell neighbour_index).mine_ then
    g.modifyCell i (fun c => { c with mines_in_vicinity_ := c.mines_in_vicinity_ + 1 })
  else g

/-- The inner loop of `SetBoardCellFlags` for cell `i`. -/
def countCell (g : Game) (i : Nat) : Game :=
  (GetNeighboursIndices g i).foldl (countNeighbour i) g

/-- The second loop of `SetBoardCellFlags`. -/
def countAll (g : Game) : Game :=
  (List.range g.board_.length).foldl countCell g

/-- The method `Game::SetBoardCellFlags`, with the generator outputs `rnd`. -/
def SetBoardCellFlags (g : Game) (rnd : List Nat) : Option Game :=
  match placeMines g.mines_left_.toNat g rnd with
  | none => none
  | some g1 => some (countAll g1)

/-! ## Reveal engine -/

/-- The loops `for (neighbour_index : neighbour_indices) if (!uncovered_) push` of
`UncoverCells`; the head of the list is the top of the stack. -/
def pushCovered (g : Game) (indices_stack : List Nat) (neighbour_indices : List Nat) : List Nat :=
  neighbour_indices.foldl
    (fun st neighbour_index =>
      if (g.cell neighbour_index).uncovered_ then st else neighbour_index :: st)
    indices_stack

/-- The loop `while (!indices_stack.empty())` of `UncoverCells`, at most `fuel`
iterations; returns the board and what is left of the stack. -/
def floodLoop : Nat → Game → List Nat → Game × List Nat
  | 0, g, indices_stack => (g, indices_stack)
  | _ + 1, g, [] => (g, [])
  | fuel + 1, g, top_index :: rest =>
    if (g.cell top_index).uncovered_ then floodLoop fuel g rest
    else
      let g1 := g.modifyCell top_index Cell.Uncover
      if (g1.cell top_index).mines_in_vicinity_ ≠ 0 then floodLoop fuel g1 rest
      else floodLoop fuel g1 (pushCovered g1 rest (GetNeighboursIndices g1 top_index))

/-- Iterations granted to the stack loop of `UncoverCells`: every cell is
uncovered at most once and pushes at most eight indices. -/
def floodFuel (g : Game) : Nat := 8 * g.board_.length + 8

/-- The method `Game::UncoverCells`. -/
def UncoverCells (g : Game) (start_index : Nat) : Game :=
  if (g.cell start_index).mine_ then
    let g1 := { g with game_over_ := true }
    let g2 := g1.modifyCell start_index (fun c => { c with mine_exploded_ := true })
    { g2 with board_ := g2.board_.map (fun c => if c.mine_ && !c.flag_ then c.Uncover else c) }
  else
    let g1 := g.modifyCell start_index Cell.Uncover
    let free_cells_remaining : Nat := g1.board_.countP (fun c => !c.mine_ && !c.uncovered_)
    if free_cells_remaining = 0 then
      { g1 with
        game_over_ := true
        mines_left_ := 0
        board_ := g1.board_.map (fun c => if c.mine_ then { c with flag_ := true } else c) }
    else if (g1.cell start_index).mines_in_vicinity_ ≠ 0 then g1
    else
      (floodLoop (floodFuel g1) g1
        (pushCovered g1 [] (GetNeighboursIndices g1 start_index))).1

/-- The loop of `UncoverAvailableNeighbourCells` over the neighbours. The second
component lists the calls `UncoverCells(neighbour_index)` made, each with the
state it was made in, in order. -/
def revealUnflagged : Game → List Nat → Game × List (Game × Nat)
  | g, [] => (g, [])
  | g, neighbour_index :: rest =>
    if (g.cell neighbour_index).flag_ then revealUnflagged g rest
    else
      let r := revealUnflagged (UncoverCells g neighbour_index) rest
      (r.1, (g, neighbour_index) :: r.2)

/-- The value `flagged_mines` of `UncoverAvailableNeighbourCells`. -/
def flaggedNeighbours (g : Game) (start_index : Nat) : Nat :=
  (GetNeighboursIndices g start_index).countP (fun neighbour_index => (g.cell neighbour_index).flag_)

/-- The method `Game::UncoverAvailableNeighbourCells`, with the calls of
`UncoverCells` it makes. -/
def chordWithCalls (g : Game) (start_index : Nat) : Game × List (Game × Nat) :=
  if (flaggedNeighbours g start_index : Int) = (g.cell start_index).mines_in_vicinity_ then
    revealUnflagged g (GetNeighboursIndices g start_index)
  else (g, [])

/-- The method `Game::UncoverAvailableNeighbourCells`. -/
def UncoverAvailableNeighbourCells (g : Game) (start_index : Nat) : Game :=
  (chordWithCalls g start_index).1

/-! ## Session: events, timer, reset -/

/-- One step of the loop of `ResetRenderCellFlags`. -/
def resetRenderLoop (current_mouse_index : Nat) : List Cell → Nat → List Cell
  | [], _ => []
  | c :: cs, i =>
    (if i ≠ current_mouse_index ∧ c.uncovered_ = false then { c with render_cell_ := true } else c) ::
      resetRenderLoop current_mouse_index cs (i + 1)

/-- The method `Game::ResetRenderCellFlags`. -/
def ResetRenderCellFlags (g : Game) (current_mouse_index : Nat) : Game :=
  { g with board_ := resetRenderLoop current_mouse_index g.board_ 0 }

/-- The left-button-release branch of `Game::HandleEvents` (lines 289-307). -/
def LeftButtonUp (g : Game) (mouse_index : Nat) : Game :=
  let g1 := { g with game_started_ := true, mouse_pressed_down_ := false }
  if (g1.cell mouse_index).uncovered_ then
    ResetRenderCellFlags (UncoverAvailableNeighbourCells g1 mouse_index) mouse_index
  else UncoverCells g1 mouse_index

/-- The right-button-press branch of `Game::HandleEvents` (lines 311-330): the flag toggle. -/
def RightButtonDown (g : Game) (mouse_index : Nat) : Game :=
  if (g.cell mouse_index).uncovered_ then g
  else
    let g1 := g.modifyCell mouse_index (fun c => { c with render_cell_ := true })
    if (g1.cell mouse_index).flag_ then
      { g1 with mines_left_ := g1.mines_left_ + 1 }.modifyCell mouse_index
        (fun c => { c with flag_ := false })
    else
      { g1 with mines_left_ := g1.mines_left_ - 1 }.modifyCell mouse_index
        (fun c => { c with flag_ := true })

/-- The SDL event types `HandleEvents` tells apart on the board. -/
inductive EventType where
  | MOUSEBUTTONDOWN
  | MOUSEBUTTONUP
  | OTHER
deriving DecidableEq, Repr

/-- The SDL mouse buttons `HandleEvents` tells apart. -/
inductive MouseButton where
  | LEFT
  | RIGHT
  | OTHER
deriving DecidableEq, Repr

/-- The board part of one iteration of the event loop of `Game::HandleEvents`
(lines 269-332), for an event of type `type` and button `button` with the
pointer at `(mx, my)`. -/
def HandleEvents (g : Game) (type : EventType) (button : MouseButton) (mx my : Int) : Game :=
  if g.game_over_ then g
  else if type = EventType.OTHER then g
  else
    match GetMousePositionIndex g mx my with
    | none => g
    | some mouse_index =>
      match button, type with
      | MouseButton.LEFT, EventType.MOUSEBUTTONDOWN => { g with mouse_pressed_down_ := true }
      | MouseButton.LEFT, EventType.MOUSEBUTTONUP => LeftButtonUp g mouse_index
      | MouseButton.RIGHT, EventType.MOUSEBUTTONDOWN => RightButtonDown g mouse_index
      | _, _ => g

/-- The loop of `Tick` that draws the neighbours of a pressed uncovered cell as pressed. -/
def pressNeighbours (g : Game) (neighbour_indices : List Nat) : Game :=
  neighbour_indices.foldl
    (fun acc neighbour_index =>
      if (acc.cell neighbour_index).render_cell_ && !(acc.cell neighbour_index).flag_ then
        acc.modifyCell neighbour_index (fun c => { c with render_cell_ := false })
      else acc)
    g

/-- The method `Game::Tick`, with the pointer at `(mx, my)`. -/
def Tick (g : Game) (mx my : Int) : Game :=
  if g.game_over_ then g
  else
    let g1 :=
      if g.game_started_ then
        let ticks := g.ticks_elapsed_ + 1
        { g with
          ticks_elapsed_ := ticks
          seconds_elapsed_ :=
            if Int.tmod ticks 60 = 0 then g.seconds_elapsed_ + 1 else g.seconds_elapsed_ }
      else g
    match GetMousePositionIndex g1 mx my with
    | none => g1
    | some mouse_index =>
      if g1.mouse_pressed_down_ then
        let g2 := ResetRenderCellFlags g1 mouse_index
        if (g2.cell mouse_index).uncovered_ then
          pressNeighbours g2 (GetNeighboursIndices g2 mouse_index)
        else if (g2.cell mouse_index).render_cell_ && !(g2.cell mouse_index).flag_ then
          g2.modifyCell mouse_index (fun c => { c with render_cell_ := false })
        else g2
      else g1

/-- The mine count of a difficulty (the `switch` of `ResetBoard` and `ResizeWindow`). -/
def mineCount : BoardSize → Int
  | BoardSize.SMALL => 10
  | BoardSize.MEDIUM => 40
  | BoardSize.LARGE => 99

/-- The method `Game::ResetBoard`, with the generator outputs `rnd`. -/
def ResetBoard (g : Game) (rnd : List Nat) : Option Game :=
  let g1 := { g with game_over_ := false, game_started_ := false, seconds_elapsed_ := 0 }
  let g2 := { g1 with mines_left_ := mineCount g1.board_size_ }
  SetBoardCellFlags (GenerateBoard g2) rnd

/-- The member initialisers of the constructor `Game::Game` and the viewports it
sets up for the small board, before the board is generated. -/
def Game.init : Game :=
  { mouse_pressed_down_ := false
    game_started_ := false
    mines_left_ := 10
    seconds_elapsed_ := 0
    ticks_elapsed_ := 0
    game_over_ := false
    board_size_ := BoardSize.SMALL
    info_viewport_ := ⟨0, 0, 320, 100⟩
    board_viewport_ := ⟨0, 100, 320, 320⟩
    board_ := [] }

/-- The constructor `Game::Game`, with the generator outputs `rnd`. -/
def Game.new (rnd : List Nat) : Option Game :=
  SetBoardCellFlags (GenerateBoard Game.init) rnd

/-! ## A concrete session -/

/-- Generator outputs that put the ten mines of the small board in its last
column; the second output repeats the first and is drawn again. -/
def rndA : List Nat := [9, 9, 19, 29, 39, 49, 59, 69, 79, 89, 99]

/-- The session `Game::Game` constructs from the outputs `rndA`. -/
def smallA : Game := (Game.new rndA).getD Game.init

/-! ## Specification vocabulary -/

/-- Entry condition of iteration `i` of the layout loop of `GenerateBoard` on a
board `w` cells wide: the running pixel position left by iteration `i - 1`. -/
def layoutEntry (w i : Nat) (rect_x rect_y : Int) : Prop :=
  (i = 0 ∧ rect_x = 0 ∧ rect_y = 0) ∨
  (0 < i ∧ rect_x = 32 * (((i - 1) % w : Nat) : Int) + 32 ∧
    rect_y = 32 * (((i - 1) / w : Nat) : Int))

/-- The board of `g` is a `w × h` grid of 32-pixel cells in row-major order, the
layout `GenerateBoard` writes. -/
def LaidOut (g : Game) (w h : Nat) : Prop :=
  g.board_viewport_.w = 32 * (w : Int) ∧ g.board_viewport_.h = 32 * (h : Int) ∧
  g.board_.length = w * h ∧
  ∀ i, i < w * h →
    (g.cell i).rect_ = ⟨32 * ((i % w : Nat) : Int), 32 * ((i / w : Nat) : Int), 32, 32⟩

/-- The neighbour list of cell `i` of a `w × h` grid, in the order of
`GetNeighboursIndices`, in exact arithmetic. -/
def gridNeighbours (w h i : Nat) : List Nat :=
  (if 1 ≤ i % w then [i - 1] else []) ++
  (if i % w + 1 < w then [i + 1] else []) ++
  (if 1 ≤ i / w then [i - w] else []) ++
  (if i / w + 1 < h then [i + w] else []) ++
  (if 1 ≤ i % w ∧ 1 ≤ i / w then [i - w - 1] else []) ++
  (if 1 ≤ i % w ∧ i / w + 1 < h then [i + w - 1] else []) ++
  (if i % w + 1 < w ∧ 1 ≤ i / w then [i - w + 1] else []) ++
  (if i % w + 1 < w ∧ i / w + 1 < h then [i + w + 1] else [])

/-- The number of neighbours of cell `i` that hold a mine. -/
def minesAround (g : Game) (i : Nat) : Nat :=
  (GetNeighboursIndices g i).countP (fun neighbour_index => (g.cell neighbour_index).mine_)

/-- The state `g1` differs from `g` at most in `mines_in_vicinity_` fields: same
viewport, same number of cells, same rectangles and mines. -/
def SameMinefield (g g1 : Game) : Prop :=
  g1.board_viewport_ = g.board_viewport_ ∧ g1.board_.length = g.board_.length ∧
  ∀ j, (g1.cell j).rect_ = (g.cell j).rect_ ∧ (g1.cell j).mine_ = (g.cell j).mine_

/-- The state `g1` differs from `g` at most in the fields `Cell::Uncover` writes
(`uncovered_`, `render_cell_`), and no cell uncovered in `g` is covered in `g1`. -/
def UncoverFrame (g g1 : Game) : Prop :=
  g1.board_viewport_ = g.board_viewport_ ∧ g1.game_over_ = g.game_over_ ∧
  g1.mines_left_ = g.mines_left_ ∧ g1.board_.length = g.board_.length ∧
  ∀ j, (g1.cell j).rect_ = (g.cell j).rect_ ∧ (g1.cell j).flag_ = (g.cell j).flag_ ∧
    (g1.cell j).mine_ = (g.cell j).mine_ ∧
    (g1.cell j).mine_exploded_ = (g.cell j).mine_exploded_ ∧
    (g1.cell j).mines_in_vicinity_ = (g.cell j).mines_in_vicinity_ ∧
    ((g.cell j).uncovered_ = true → (g1.cell j).uncovered_ = true)

/-- Every neighbour index of a cell of the board is an index of the board. -/
def NeighboursInBounds (g : Game) : Prop :=
  ∀ i, i < g.board_.length → ∀ n, n ∈ GetNeighboursIndices g i → n < g.board_.length

/-- The number of covered cells. -/
def coveredCount (g : Game) : Nat := g.board_.countP (fun c => !c.uncovered_)

/-- The closure condition of the stack loop of `UncoverCells`: every neighbour of
an uncovered cell with `mines_in_vicinity_ == 0` is uncovered or on the stack. -/
def FloodClosed (g : Game) (indices_stack : List Nat) : Prop :=
  ∀ z, (g.cell z).uncovered_ = true → (g.cell z).mines_in_vicinity_ = 0 →
    ∀ n, n ∈ GetNeighboursIndices g z → (g.cell n).uncovered_ = true ∨ n ∈ indices_stack

/-- The cells the flood fill of `UncoverCells` can reach from `s`: `s` itself,
and every neighbour of a reached cell with `mines_in_vicinity_ == 0`. -/
inductive FloodReach (g : Game) (s : Nat) : Nat → Prop where
  | start : FloodReach g s s
  | step {z n : Nat} : FloodReach g s z → (g.cell z).mines_in_vicinity_ = 0 →
      n ∈ GetNeighboursIndices g z → FloodReach g s n

/-- One SDL event as `HandleEvents` reads it on the board: its type, its button
and the pointer position. -/
structure BoardEvent where
  type : EventType
  button : MouseButton
  x : Int
  y : Int
deriving DecidableEq, Repr

/-- The event loop of `HandleEvents` over a queue of board events. -/
def playEvents (g : Game) (events : List BoardEvent) : Game :=
  events.foldl (fun acc e => HandleEvents acc e.type e.button e.x e.y) g

/-- The effect of `k` calls of `Tick` with the pointer resting at `(mx, my)`. -/
def tickTimes : Nat → Game → Int → Int → Game
  | 0, g, _, _ => g
  | k + 1, g, mx, my => tickTimes k (Tick g mx my) mx my

/-- A left-button release with the pointer inside cell `(col, row)`. -/
def leftClick (col row : Int) : BoardEvent :=
  ⟨EventType.MOUSEBUTTONUP, MouseButton.LEFT, 32 * col + 5, 100 + 32 * row + 5⟩

/-- A right-button press with the pointer inside cell `(col, row)`. -/
def rightClick (col row : Int) : BoardEvent :=
  ⟨EventType.MOUSEBUTTONDOWN, MouseButton.RIGHT, 32 * col + 5, 100 + 32 * row + 5⟩

/-- The session `smallA` after a first reveal (cell 8), 59 ticks, and a press of
the reset button whose `ResetBoard` draws the outputs `rndA` again. -/
def resetA : Game :=
  (ResetBoard (tickTimes 59 (playEvents smallA [leftClick 8 0]) 5 50) rndA).getD Game.init

/-! # Lemmas and theorems -/

/-! ## Machine integer facts -/

theorem toSizeT_natCast (n : Nat) (h : n < 18446744073709551616) : toSizeT (n : Int) = n := by
  unfold toSizeT
  omega

theorem tdiv32_cast (w : Nat) : Int.tdiv (32 * (w : Int)) 32 = (w : Int) :=
  Int.mul_tdiv_cancel_left _ (by norm_num)

/-! ## Cell access -/

theorem cell_eq_getElem (g : Game) (i : Nat) (h : i < g.board_.length) :
    g.cell i = g.board_[i] := by
  simp [Game.cell, List.getD_eq_getElem?_getD, List.getElem?_eq_getElem h]

theorem cell_of_le (g : Game) (i : Nat) (h : g.board_.length ≤ i) : g.cell i = Cell.new := by
  simp [Game.cell, List.getD_eq_getElem?_getD, List.getElem?_eq_none h]

theorem length_modifyCell (g : Game) (i : Nat) (f : Cell → Cell) :
    (g.modifyCell i f).board_.length = g.board_.length := by
  simp [Game.modifyCell]

theorem cell_modifyCell_self (g : Game) (i : Nat) (f : Cell → Cell) (h : i < g.board_.length) :
    (g.modifyCell i f).cell i = f (g.cell i) := by
  simp [Game.modifyCell, Game.cell, List.getD_eq_getElem?_getD, List.getElem?_set, h]

theorem cell_modifyCell_ne (g : Game) (i j : Nat) (f : Cell → Cell) (h : i ≠ j) :
    (g.modifyCell i f).cell j = g.cell j := by
  simp [Game.modifyCell, Game.cell, List.getD_eq_getElem?_getD, List.getElem?_set, h]

theorem modifyCell_of_le (g : Game) (i : Nat) (f : Cell → Cell) (h : g.board_.length ≤ i) :
    g.modifyCell i f = g := by
  cases g
  simp only [Game.modifyCell, Game.mk.injEq, true_and]
  simp only at h
  exact List.set_eq_of_length_le h

theorem cell_modifyCell (g : Game) (i j : Nat) (f : Cell → Cell) :
    (g.modifyCell i f).cell j =
      if i = j ∧ i < g.board_.length then f (g.cell j) else g.cell j := by
  by_cases hij : i = j
  · subst hij
    by_cases hi : i < g.board_.length
    · simp [hi, cell_modifyCell_self]
    · simp [hi, modifyCell_of_le g i f (Nat.le_of_not_lt hi)]
  · simp [hij, cell_modifyCell_ne]

/-! ## Layout of `GenerateBoard` -/

theorem pred_div_mod (w i : Nat) (hw : 0 < w) (hi : 0 < i) :
    (i % w = 0 → (i - 1) / w + 1 = i / w) ∧
    (i % w ≠ 0 → (i - 1) / w = i / w ∧ (i - 1) % w + 1 = i % w) := by
  have hdm : w * (i / w) + i % w = i := Nat.div_add_mod i w
  have hr : i % w < w := Nat.mod_lt _ hw
  constructor
  · intro h0
    rcases hq : i / w with _ | q
    · rw [hq] at hdm; omega
    · rw [hq, Nat.mul_succ] at hdm
      have := (Nat.div_mod_unique (a := i - 1) (c := w - 1) (d := q) hw).2 ⟨by omega, by omega⟩
      omega
  · intro h0
    have := (Nat.div_mod_unique (a := i - 1) (c := i % w - 1) (d := i / w) hw).2
      ⟨by omega, by omega⟩
    omega

theorem layoutLoop_length (bw : Int) (cs : List Cell) (i : Nat) (rx ry : Int) :
    (layoutLoop bw cs i rx ry).length = cs.length := by
  induction cs generalizing i rx ry with
  | nil => simp [layoutLoop]
  | cons c cs ih => simp [layoutLoop, ih]

theorem layoutLoop_rect (w : Nat) (hw : 0 < w) (cs : List Cell) :
    ∀ (i : Nat) (rx ry : Int) (k : Nat), layoutEntry w i rx ry →
      (i + cs.length) * 32 < 18446744073709551616 → 32 * w < 18446744073709551616 →
      k < cs.length →
      ((layoutLoop (32 * (w : Int)) cs i rx ry).getD k Cell.new).rect_ =
        ⟨32 * (((i + k) % w : Nat) : Int), 32 * (((i + k) / w : Nat) : Int), 32, 32⟩ := by
  induction cs with
  | nil => intro i rx ry k _ _ _ hk; simp at hk
  | cons c cs ih =>
    intro i rx ry k hent hfit hwfit hk
    have hsz : toSizeT (32 * (w : Int)) = 32 * w := by
      have := toSizeT_natCast (32 * w) hwfit
      simpa using this
    have hmul : szMul i 32 = i * 32 := by
      unfold szMul SIZE_MOD
      simp only [List.length_cons] at hfit
      omega
    have hwrap : (szMul i 32 % toSizeT (32 * (w : Int)) = 0) ↔ i % w = 0 := by
      rw [hsz, hmul, Nat.mul_comm 32 w, Nat.mul_mod_mul_right]
      omega
    -- the rectangle written at index `i`
    have hrect :
        (if (decide (i ≠ 0) && decide (szMul i 32 % toSizeT (32 * (w : Int)) = 0)) = true
          then (0 : Int) else rx) = 32 * ((i % w : Nat) : Int) ∧
        (if (decide (i ≠ 0) && decide (szMul i 32 % toSizeT (32 * (w : Int)) = 0)) = true
          then ry + 32 else ry) = 32 * ((i / w : Nat) : Int) := by
      rcases hent with ⟨h0, hx, hy⟩ | ⟨hpos, hx, hy⟩
      · subst h0; simp [hx, hy]
      · have hne : i ≠ 0 := by omega
        have hpd := pred_div_mod w i hw hpos
        by_cases hm : i % w = 0
        · have h1 := hpd.1 hm
          simp only [hne, ne_eq, not_false_eq_true, decide_True, hwrap.2 hm, Bool.and_self,
            if_true]
          constructor
          · simp [hm]
          · rw [hy, ← h1]; push_cast; ring
        · have h1 := hpd.2 hm
          have hnw : ¬ (szMul i 32 % toSizeT (32 * (w : Int)) = 0) := fun hc => hm (hwrap.1 hc)
          simp only [hnw, decide_False, Bool.and_false, Bool.false_eq_true, if_false]
          constructor
          · rw [hx, ← h1.2]; push_cast; ring
          · rw [hy, h1.1]
    cases k with
    | zero =>
      simp only [layoutLoop, List.getD_cons_zero, Nat.add_zero]
      rw [hrect.1, hrect.2]
    | succ k =>
      simp only [layoutLoop, List.getD_cons_succ]
      have hnext : layoutEntry w (i + 1)
          ((if (decide (i ≠ 0) && decide (szMul i 32 % toSizeT (32 * (w : Int)) = 0)) = true
            then (0 : Int) else rx) + 32)
          (if (decide (i ≠ 0) && decide (szMul i 32 % toSizeT (32 * (w : Int)) = 0)) = true
            then ry + 32 else ry) := by
        right
        refine ⟨by omega, ?_, ?_⟩
        · rw [hrect.1]; simp
        · rw [hrect.2]; simp
      have := ih (i + 1) _ _ k hnext (by simp only [List.length_cons] at hfit; omega) hwfit
        (by simpa using hk)
      rw [this]
      have e : i + 1 + k = i + (k + 1) := by omega
      rw [e]

theorem GenerateBoard_laidOut (g : Game) (w h : Nat) (hw : 1 ≤ w) (hh : 1 ≤ h)
    (hN : w * h < 2147483648)
    (hbw : g.board_viewport_.w = 32 * (w : Int)) (hbh : g.board_viewport_.h = 32 * (h : Int)) :
    LaidOut (GenerateBoard g) w h := by
  have hwle : w ≤ w * h := Nat.le_mul_of_pos_right w hh
  have hlen : (GenerateBoard g).board_.length = w * h := by
    simp only [GenerateBoard, layoutLoop_length, List.length_replicate, hbw, hbh, tdiv32_cast]
    rw [← Nat.cast_mul, Int.toNat_ofNat]
  refine ⟨hbw, hbh, hlen, ?_⟩
  intro i hi
  have := layoutLoop_rect w hw (List.replicate (w * h) Cell.new) 0 0 0 i
    (Or.inl ⟨rfl, rfl, rfl⟩) (by simp only [List.length_replicate]; omega) (by omega)
    (by simpa using hi)
  simp only [Nat.zero_add] at this
  rw [← this]
  simp only [Game.cell, GenerateBoard, hbw, hbh, tdiv32_cast]
  rw [← Nat.cast_mul, Int.toNat_ofNat]

theorem ite_singleton_congr {b : Bool} (p : Prop) [Decidable p] {a : Nat} (v : Nat)
    (hc : b = true ↔ p) (ha : p → a = v) :
    (if b = true then [a] else []) = (if p then [v] else []) := by
  by_cases hp : p
  · simp [hp, hc.2 hp, ha hp]
  · have : ¬ b = true := fun hb => hp (hc.1 hb)
    simp [hp, this]

theorem neighbours_of_laidOut (g : Game) (w h i : Nat) (hw : 1 ≤ w)
    (hN : w * h < 2147483648) (hlay : LaidOut g w h) (hi : i < w * h) :
    GetNeighboursIndices g i = gridNeighbours w h i := by
  obtain ⟨hbw, hbh, _, hrect⟩ := hlay
  have hh : 1 ≤ h := by
    rcases Nat.eq_zero_or_pos h with h0 | h0
    · subst h0; simp at hi
    · exact h0
  have hwle : w ≤ w * h := Nat.le_mul_of_pos_right w hh
  have hdm : w * (i / w) + i % w = i := Nat.div_add_mod i w
  have hx : i % w < w := Nat.mod_lt _ hw
  have hyw : 1 ≤ i / w → w ≤ w * (i / w) := fun h1 => Nat.le_mul_of_pos_right w h1
  have hrow : toSizeT (Int.tdiv (32 * (w : Int)) 32) = w := by
    rw [tdiv32_cast]; exact toSizeT_natCast w (by omega)
  unfold GetNeighboursIndices gridNeighbours
  simp only [hrect i hi, hbw, hbh, hrow]
  rw [ite_singleton_congr (1 ≤ i % w) (i - 1) (by simp; omega)
        (by intro h1; unfold szSub SIZE_MOD; omega),
      ite_singleton_congr (i % w + 1 < w) (i + 1) (by simp; omega)
        (by intro h1; unfold szAdd SIZE_MOD; omega),
      ite_singleton_congr (1 ≤ i / w) (i - w) (by simp; omega)
        (by intro h1; have := hyw h1; unfold szSub SIZE_MOD; omega),
      ite_singleton_congr (i / w + 1 < h) (i + w) (by simp; omega)
        (by intro h1; unfold szAdd SIZE_MOD; omega),
      ite_singleton_congr (1 ≤ i % w ∧ 1 ≤ i / w) (i - w - 1) (by simp; omega)
        (by intro h1; have := hyw h1.2; unfold szSub SIZE_MOD; omega),
      ite_singleton_congr (1 ≤ i % w ∧ i / w + 1 < h) (i + w - 1) (by simp; omega)
        (by intro h1; unfold szSub szAdd SIZE_MOD; omega),
      ite_singleton_congr (i % w + 1 < w ∧ 1 ≤ i / w) (i - w + 1) (by simp; omega)
        (by intro h1; have := hyw h1.2; unfold szSub szAdd SIZE_MOD; omega),
      ite_singleton_congr (i % w + 1 < w ∧ i / w + 1 < h) (i + w + 1) (by simp; omega)
        (by intro h1; unfold szAdd SIZE_MOD; omega)]

theorem gridNeighbours_mem (w h i j : Nat) (hw : 1 ≤ w) (hi : i < w * h) :
    j ∈ gridNeighbours w h i ↔
      ∃ x' y' : Nat, x' < w ∧ y' < h ∧
        |(x' : Int) - ((i % w : Nat) : Int)| ≤ 1 ∧ |(y' : Int) - ((i / w : Nat) : Int)| ≤ 1 ∧
        (x', y') ≠ (i % w, i / w) ∧ j = y' * w + x' := by
  have hdm : w * (i / w) + i % w = i := Nat.div_add_mod i w
  have hx : i % w < w := Nat.mod_lt _ hw
  have hy : i / w < h := by
    rw [Nat.div_lt_iff_lt_mul hw, Nat.mul_comm]; exact hi
  generalize hxe : i % w = x at *
  generalize hye : i / w = y at *
  constructor
  · intro hj
    simp only [gridNeighbours, List.mem_append, List.mem_ite_nil_right, List.mem_singleton] at hj
    have key : ∀ x' y' : Nat, x' < w → y' < h → (x' : Int) - x ≤ 1 → (x : Int) - x' ≤ 1 →
        (y' : Int) - y ≤ 1 → (y : Int) - y' ≤ 1 → (x' ≠ x ∨ y' ≠ y) → j = y' * w + x' →
        ∃ x' y' : Nat, x' < w ∧ y' < h ∧
        |(x' : Int) - (x : Int)| ≤ 1 ∧ |(y' : Int) - (y : Int)| ≤ 1 ∧
        (x', y') ≠ (x, y) ∧ j = y' * w + x' := by
      intro x' y' h1 h2 h3 h4 h5 h6 h7 h8
      refine ⟨x', y', h1, h2, abs_le.2 ⟨by omega, by omega⟩, abs_le.2 ⟨by omega, by omega⟩, ?_, h8⟩
      intro hc
      simp only [Prod.mk.injEq] at hc
      omega
    have hmc : w * y = y * w := Nat.mul_comm _ _
    have hs : (y + 1) * w = y * w + w := Nat.succ_mul _ _
    rcases hj with ((((((⟨h1, rfl⟩ | ⟨h1, rfl⟩) | ⟨h1, rfl⟩) | ⟨h1, rfl⟩) | ⟨h1, rfl⟩) |
      ⟨h1, rfl⟩) | ⟨h1, rfl⟩) | ⟨h1, rfl⟩
    · exact key (x - 1) y (by omega) hy (by omega) (by omega) (by omega) (by omega)
        (by omega) (by omega)
    · exact key (x + 1) y (by omega) hy (by omega) (by omega) (by omega) (by omega)
        (by omega) (by omega)
    · obtain ⟨y0, rfl⟩ : ∃ y0, y = y0 + 1 := ⟨y - 1, by omega⟩
      have hs0 : (y0 + 1) * w = y0 * w + w := Nat.succ_mul _ _
      exact key x y0 (by omega) (by omega) (by omega) (by omega) (by omega) (by omega)
        (by omega) (by omega)
    · exact key x (y + 1) (by omega) (by omega) (by omega) (by omega) (by omega) (by omega)
        (by omega) (by omega)
    · obtain ⟨y0, rfl⟩ : ∃ y0, y = y0 + 1 := ⟨y - 1, by omega⟩
      have hs0 : (y0 + 1) * w = y0 * w + w := Nat.succ_mul _ _
      exact key (x - 1) y0 (by omega) (by omega) (by omega) (by omega) (by omega) (by omega)
        (by omega) (by omega)
    · exact key (x - 1) (y + 1) (by omega) (by omega) (by omega) (by omega) (by omega)
        (by omega) (by omega) (by omega)
    · obtain ⟨y0, rfl⟩ : ∃ y0, y = y0 + 1 := ⟨y - 1, by omega⟩
      have hs0 : (y0 + 1) * w = y0 * w + w := Nat.succ_mul _ _
      exact key (x + 1) y0 (by omega) (by omega) (by omega) (by omega) (by omega) (by omega)
        (by omega) (by omega)
    · exact key (x + 1) (y + 1) (by omega) (by omega) (by omega) (by omega) (by omega)
        (by omega) (by omega) (by omega)
  · rintro ⟨x', y', hx', hy', hax, hay, hne, rfl⟩
    rw [abs_le] at hax hay
    have hne' : x' ≠ x ∨ y' ≠ y := by
      by_contra hc
      push_neg at hc
      exact hne (by rw [hc.1, hc.2])
    simp only [gridNeighbours, List.mem_append, List.mem_ite_nil_right, List.mem_singleton]
    have hmc : w * y = y * w := Nat.mul_comm _ _
    have hys : y' = y ∨ y' = y + 1 ∨ y = y' + 1 := by omega
    have hxs : x' = x ∨ x' = x + 1 ∨ x = x' + 1 := by omega
    have hs : (y + 1) * w = y * w + w := Nat.succ_mul _ _
    have hs' : (y' + 1) * w = y' * w + w := Nat.succ_mul _ _
    rcases hys with rfl | rfl | rfl <;> rcases hxs with rfl | rfl | rfl <;>
      first
      | (exfalso; simp at hne'; done)
      | (repeat (first | exact Or.inr ⟨by omega, by omega⟩ | apply Or.inl)
         first | done | exact ⟨by omega, by omega⟩)

theorem gridNeighbours_lt (w h i j : Nat) (hw : 1 ≤ w) (hi : i < w * h)
    (hj : j ∈ gridNeighbours w h i) : j < w * h := by
  obtain ⟨x', y', hx', hy', _, _, _, rfl⟩ := (gridNeighbours_mem w h i j hw hi).1 hj
  calc y' * w + x' < y' * w + w := by omega
    _ = (y' + 1) * w := (Nat.succ_mul _ _).symm
    _ ≤ h * w := Nat.mul_le_mul_right w hy'
    _ = w * h := Nat.mul_comm _ _

theorem gridNeighbours_ne_self (w h i j : Nat) (hw : 1 ≤ w) (hi : i < w * h)
    (hj : j ∈ gridNeighbours w h i) : j ≠ i := by
  obtain ⟨x', y', hx', hy', _, _, hne, rfl⟩ := (gridNeighbours_mem w h i j hw hi).1 hj
  intro hc
  apply hne
  have := (Nat.div_mod_unique (a := i) (c := x') (d := y') hw).2
    ⟨by rw [← hc, Nat.mul_comm]; omega, hx'⟩
  rw [this.1, this.2]

theorem length_ite_singleton_le (p : Prop) [Decidable p] (a : Nat) :
    (if p then [a] else []).length ≤ 1 := by
  split_ifs <;> simp

theorem gridNeighbours_length_le (w h i : Nat) : (gridNeighbours w h i).length ≤ 8 := by
  unfold gridNeighbours
  simp only [List.length_append]
  have h1 := length_ite_singleton_le (1 ≤ i % w) (i - 1)
  have h2 := length_ite_singleton_le (i % w + 1 < w) (i + 1)
  have h3 := length_ite_singleton_le (1 ≤ i / w) (i - w)
  have h4 := length_ite_singleton_le (i / w + 1 < h) (i + w)
  have h5 := length_ite_singleton_le (1 ≤ i % w ∧ 1 ≤ i / w) (i - w - 1)
  have h6 := length_ite_singleton_le (1 ≤ i % w ∧ i / w + 1 < h) (i + w - 1)
  have h7 := length_ite_singleton_le (i % w + 1 < w ∧ 1 ≤ i / w) (i - w + 1)
  have h8 := length_ite_singleton_le (i % w + 1 < w ∧ i / w + 1 < h) (i + w + 1)
  omega

theorem gridNeighbours_nodup (w h i : Nat) (hw : 1 ≤ w) : (gridNeighbours w h i).Nodup := by
  have hdm : w * (i / w) + i % w = i := Nat.div_add_mod i w
  have hx : i % w < w := Nat.mod_lt _ hw
  have hyw : 1 ≤ i / w → w ≤ w * (i / w) := fun h1 => Nat.le_mul_of_pos_right w h1
  unfold gridNeighbours
  by_cases h1 : 1 ≤ i % w <;> by_cases h2 : i % w + 1 < w <;> by_cases h3 : 1 ≤ i / w <;>
    by_cases h4 : i / w + 1 < h <;>
    simp only [h1, h2, h3, h4, if_true, if_false, and_self, and_true, and_false, true_and,
      false_and, List.append_nil, List.nil_append, List.singleton_append, List.cons_append,
      List.nodup_cons, List.mem_cons, List.mem_singleton, List.not_mem_nil, List.nodup_nil,
      not_or, not_false_eq_true] <;>
    (first | trivial | (have hwy := hyw (by omega); omega) | omega)

/-! ## Adjacency counts of `SetBoardCellFlags` -/

theorem neighbours_congr (g g1 : Game) (i : Nat) (hv : g1.board_viewport_ = g.board_viewport_)
    (hr : (g1.cell i).rect_ = (g.cell i).rect_) :
    GetNeighboursIndices g1 i = GetNeighboursIndices g i := by
  unfold GetNeighboursIndices
  simp only [hv, hr]

theorem length_ite_bool_singleton_le (b : Bool) (a : Nat) :
    (if b = true then [a] else []).length ≤ 1 := by
  split_ifs <;> simp

theorem neighbours_length_le (g : Game) (i : Nat) : (GetNeighboursIndices g i).length ≤ 8 := by
  unfold GetNeighboursIndices
  simp only [List.length_append]
  have h := length_ite_bool_singleton_le
  have h1 := h (decide ((g.cell i).rect_.x - 32 ≥ 0)) (szSub i 1)
  have h2 := h (decide ((g.cell i).rect_.x + 32 < g.board_viewport_.w)) (szAdd i 1)
  have h3 := h (decide ((g.cell i).rect_.y - 32 ≥ 0))
    (szSub i (toSizeT (Int.tdiv g.board_viewport_.w 32)))
  have h4 := h (decide ((g.cell i).rect_.y + 32 < g.board_viewport_.h))
    (szAdd i (toSizeT (Int.tdiv g.board_viewport_.w 32)))
  have h5 := h (decide ((g.cell i).rect_.x - 32 ≥ 0) && decide ((g.cell i).rect_.y - 32 ≥ 0))
    (szSub (szSub i (toSizeT (Int.tdiv g.board_viewport_.w 32))) 1)
  have h6 := h (decide ((g.cell i).rect_.x - 32 ≥ 0) &&
    decide ((g.cell i).rect_.y + 32 < g.board_viewport_.h))
    (szSub (szAdd i (toSizeT (Int.tdiv g.board_viewport_.w 32))) 1)
  have h7 := h (decide ((g.cell i).rect_.x + 32 < g.board_viewport_.w) &&
    decide ((g.cell i).rect_.y - 32 ≥ 0))
    (szAdd (szSub i (toSizeT (Int.tdiv g.board_viewport_.w 32))) 1)
  have h8 := h (decide ((g.cell i).rect_.x + 32 < g.board_viewport_.w) &&
    decide ((g.cell i).rect_.y + 32 < g.board_viewport_.h))
    (szAdd (szAdd i (toSizeT (Int.tdiv g.board_viewport_.w 32))) 1)
  omega

theorem sameMinefield_refl (g : Game) : SameMinefield g g :=
  ⟨rfl, rfl, fun _ => ⟨rfl, rfl⟩⟩

theorem sameMinefield_trans {g g1 g2 : Game} (h1 : SameMinefield g g1)
    (h2 : SameMinefield g1 g2) : SameMinefield g g2 :=
  ⟨h2.1.trans h1.1, h2.2.1.trans h1.2.1,
    fun j => ⟨((h2.2.2 j).1).trans (h1.2.2 j).1, ((h2.2.2 j).2).trans (h1.2.2 j).2⟩⟩

theorem sameMinefield_neighbours {g g1 : Game} (h : SameMinefield g g1) (i : Nat) :
    GetNeighboursIndices g1 i = GetNeighboursIndices g i :=
  neighbours_congr g g1 i h.1 (h.2.2 i).1

theorem sameMinefield_minesAround {g g1 : Game} (h : SameMinefield g g1) (i : Nat) :
    minesAround g1 i = minesAround g i := by
  unfold minesAround
  rw [sameMinefield_neighbours h i]
  exact List.countP_congr (fun n _ => by rw [(h.2.2 n).2])

theorem countNeighbour_spec (i : Nat) (g : Game) (n : Nat) :
    SameMinefield g (countNeighbour i g n) ∧
    (∀ j, j ≠ i → (countNeighbour i g n).cell j = g.cell j) ∧
    (i < g.board_.length → ((countNeighbour i g n).cell i).mines_in_vicinity_ =
      (g.cell i).mines_in_vicinity_ + (if (g.cell n).mine_ then 1 else 0)) := by
  unfold countNeighbour
  by_cases hm : (g.cell n).mine_ = true
  · simp only [hm, if_true]
    refine ⟨⟨rfl, length_modifyCell _ _ _, fun j => ?_⟩, fun j hj => ?_, fun hi => ?_⟩
    · rw [cell_modifyCell]; split_ifs with hc
      · obtain ⟨rfl, _⟩ := hc; exact ⟨rfl, rfl⟩
      · exact ⟨rfl, rfl⟩
    · exact cell_modifyCell_ne _ _ _ _ (Ne.symm hj)
    · rw [cell_modifyCell_self _ _ _ hi]
  · simp only [hm]
    exact ⟨sameMinefield_refl g, fun _ _ => rfl, fun _ => by simp⟩

theorem countFold_spec (i : Nat) (ns : List Nat) :
    ∀ g : Game, SameMinefield g (ns.foldl (countNeighbour i) g) ∧
      (∀ j, j ≠ i → (ns.foldl (countNeighbour i) g).cell j = g.cell j) ∧
      (i < g.board_.length → ((ns.foldl (countNeighbour i) g).cell i).mines_in_vicinity_ =
        (g.cell i).mines_in_vicinity_ + (ns.countP (fun n => (g.cell n).mine_) : Nat)) := by
  induction ns with
  | nil => intro g; exact ⟨sameMinefield_refl g, fun _ _ => rfl, fun _ => by simp⟩
  | cons n ns ih =>
    intro g
    obtain ⟨s1, o1, c1⟩ := countNeighbour_spec i g n
    obtain ⟨s2, o2, c2⟩ := ih (countNeighbour i g n)
    simp only [List.foldl_cons]
    refine ⟨sameMinefield_trans s1 s2, fun j hj => (o2 j hj).trans (o1 j hj), fun hi => ?_⟩
    rw [c2 (by rw [s1.2.1]; exact hi), c1 hi]
    have hcp : List.countP (fun m => ((countNeighbour i g n).cell m).mine_) ns =
        List.countP (fun m => (g.cell m).mine_) ns :=
      List.countP_congr (fun m _ => by rw [(s1.2.2 m).2])
    rw [hcp, List.countP_cons]
    by_cases hm : (g.cell n).mine_ = true
    · simp [hm]; ring
    · simp [hm]

theorem countCell_spec (g : Game) (i : Nat) :
    SameMinefield g (countCell g i) ∧
    (∀ j, j ≠ i → (countCell g i).cell j = g.cell j) ∧
    (i < g.board_.length → ((countCell g i).cell i).mines_in_vicinity_ =
      (g.cell i).mines_in_vicinity_ + (minesAround g i : Nat)) :=
  countFold_spec i (GetNeighboursIndices g i) g

theorem countRange_spec (g : Game) (k : Nat) :
    SameMinefield g ((List.range k).foldl countCell g) ∧
    ∀ i, i < g.board_.length →
      (((List.range k).foldl countCell g).cell i).mines_in_vicinity_ =
        (g.cell i).mines_in_vicinity_ + (if i < k then (minesAround g i : Int) else 0) := by
  induction k with
  | zero => exact ⟨sameMinefield_refl g, fun i _ => by simp⟩
  | succ k ih =>
    obtain ⟨s1, c1⟩ := ih
    rw [List.range_succ, List.foldl_append]
    simp only [List.foldl_cons, List.foldl_nil]
    obtain ⟨s2, o2, c2⟩ := countCell_spec ((List.range k).foldl countCell g) k
    refine ⟨sameMinefield_trans s1 s2, fun i hi => ?_⟩
    by_cases hik : i = k
    · subst hik
      rw [c2 (by rw [s1.2.1]; exact hi), c1 i hi, sameMinefield_minesAround s1]
      simp
    · rw [o2 i hik, c1 i hi]
      have : (i < k + 1) ↔ (i < k) := by omega
      simp only [this]

theorem countAll_spec (g : Game) :
    SameMinefield g (countAll g) ∧
    ∀ i, i < g.board_.length →
      ((countAll g).cell i).mines_in_vicinity_ =
        (g.cell i).mines_in_vicinity_ + (minesAround g i : Int) := by
  obtain ⟨s, c⟩ := countRange_spec g g.board_.length
  refine ⟨s, fun i hi => ?_⟩
  have := c i hi
  simp only [hi, if_true] at this
  exact this

theorem cell_mem_or_new (g : Game) (i : Nat) : g.cell i ∈ g.board_ ∨ g.cell i = Cell.new := by
  by_cases h : i < g.board_.length
  · left; rw [cell_eq_getElem g i h]; exact List.getElem_mem h
  · right; exact cell_of_le g i (Nat.le_of_not_lt h)

theorem layoutLoop_mem (bw : Int) (cs : List Cell) :
    ∀ (i : Nat) (rx ry : Int) (c : Cell), c ∈ layoutLoop bw cs i rx ry →
      ∃ c0 ∈ cs, ∃ r : SDL_Rect, c = { c0 with rect_ := r } := by
  induction cs with
  | nil => intro i rx ry c hc; simp [layoutLoop] at hc
  | cons c0 cs ih =>
    intro i rx ry c hc
    simp only [layoutLoop, List.mem_cons] at hc
    rcases hc with rfl | hc
    · exact ⟨c0, List.mem_cons_self _ _, _, rfl⟩
    · obtain ⟨c1, h1, r, rfl⟩ := ih _ _ _ c hc
      exact ⟨c1, List.mem_cons_of_mem _ h1, r, rfl⟩

theorem GenerateBoard_fresh (g : Game) (i : Nat) :
    ((GenerateBoard g).cell i).mines_in_vicinity_ = 0 ∧
    ((GenerateBoard g).cell i).mine_ = false ∧
    ((GenerateBoard g).cell i).flag_ = false ∧
    ((GenerateBoard g).cell i).uncovered_ = false ∧
    ((GenerateBoard g).cell i).mine_exploded_ = false := by
  rcases cell_mem_or_new (GenerateBoard g) i with h | h
  · obtain ⟨c0, h0, r, hc⟩ := layoutLoop_mem _ _ _ _ _ _ h
    rw [List.eq_of_mem_replicate h0] at hc
    rw [hc]
    exact ⟨rfl, rfl, rfl, rfl, rfl⟩
  · rw [h]; exact ⟨rfl, rfl, rfl, rfl, rfl⟩

theorem placeMines_frame (count : Nat) :
    ∀ (g : Game) (rnd : List Nat) (g1 : Game), placeMines count g rnd = some g1 →
      g1.board_viewport_ = g.board_viewport_ ∧ g1.board_.length = g.board_.length ∧
      ∀ j, (g1.cell j).rect_ = (g.cell j).rect_ ∧
        (g1.cell j).mines_in_vicinity_ = (g.cell j).mines_in_vicinity_ := by
  induction count with
  | zero =>
    intro g rnd g1 h
    simp only [placeMines, Option.some.injEq] at h
    subst h
    exact ⟨rfl, rfl, fun _ => ⟨rfl, rfl⟩⟩
  | succ count ih =>
    intro g rnd g1 h
    simp only [placeMines] at h
    rcases hd : drawFreeCell g rnd with _ | ⟨mine_index, rest⟩
    · rw [hd] at h; simp at h
    · rw [hd] at h
      simp only at h
      obtain ⟨hv, hl, hc⟩ := ih _ _ _ h
      refine ⟨hv, by rw [hl, length_modifyCell], fun j => ?_⟩
      rw [(hc j).1, (hc j).2, cell_modifyCell]
      split_ifs <;> exact ⟨rfl, rfl⟩

theorem SetBoardCellFlags_counts (g : Game) (rnd : List Nat) (g1 : Game)
    (hfresh : ∀ i, (g.cell i).mines_in_vicinity_ = 0)
    (h : SetBoardCellFlags g rnd = some g1) :
    g1.board_.length = g.board_.length ∧ g1.board_viewport_ = g.board_viewport_ ∧
    (∀ i, (g1.cell i).rect_ = (g.cell i).rect_) ∧
    ∀ i, i < g1.board_.length → (g1.cell i).mines_in_vicinity_ = (minesAround g1 i : Int) := by
  unfold SetBoardCellFlags at h
  rcases hp : placeMines g.mines_left_.toNat g rnd with _ | g2
  · rw [hp] at h; simp at h
  · rw [hp] at h
    simp only [Option.some.injEq] at h
    subst h
    obtain ⟨hv, hl, hc⟩ := placeMines_frame _ _ _ _ hp
    obtain ⟨s, c⟩ := countAll_spec g2
    refine ⟨s.2.1.trans hl, s.1.trans hv, fun i => ((s.2.2 i).1).trans (hc i).1, fun i hi => ?_⟩
    rw [c i (by rw [← s.2.1]; exact hi), (hc i).2, hfresh i, sameMinefield_minesAround s]
    simp

/-! ## The concrete session -/

theorem smallA_new : Game.new rndA = some smallA := by decide!

theorem smallA_mines :
    smallA.board_.length = 100 ∧ smallA.mines_left_ = 10 ∧
    (List.range 100).filter (fun i => (smallA.cell i).mine_) =
      [9, 19, 29, 39, 49, 59, 69, 79, 89, 99] := by decide!

/-! ## C3 and C6 -/

/-- C3: on a board of `w × h` cells laid out by `GenerateBoard` (viewport of
`32 w × 32 h` pixels, `w, h ≥ 1`, the cell count an `int`), for every index
`i < w * h` with coordinates `(i mod w, i div w)`, `GetNeighboursIndices i` has no
duplicates and holds exactly the indices `y' * w + x'` of the cells `(x', y')` of the
grid with `|x' - x| ≤ 1`, `|y' - y| ≤ 1` other than `(x, y)` itself; every index it
returns is below `w * h`. -/
theorem C3_neighbour_geometry (g : Game) (w h i : Nat) (hw : 1 ≤ w) (hh : 1 ≤ h)
    (hN : w * h < 2147483648)
    (hbw : g.board_viewport_.w = 32 * (w : Int)) (hbh : g.board_viewport_.h = 32 * (h : Int))
    (hi : i < w * h) :
    (GenerateBoard g).board_.length = w * h ∧
    (GetNeighboursIndices (GenerateBoard g) i).Nodup ∧
    (∀ j, j ∈ GetNeighboursIndices (GenerateBoard g) i ↔
      ∃ x' y' : Nat, x' < w ∧ y' < h ∧
        |(x' : Int) - ((i % w : Nat) : Int)| ≤ 1 ∧ |(y' : Int) - ((i / w : Nat) : Int)| ≤ 1 ∧
        (x', y') ≠ (i % w, i / w) ∧ j = y' * w + x') ∧
    (∀ j, j ∈ GetNeighboursIndices (GenerateBoard g) i → j < w * h) := by
  have hlay := GenerateBoard_laidOut g w h hw hh hN hbw hbh
  rw [neighbours_of_laidOut _ w h i hw hN hlay hi]
  exact ⟨hlay.2.2.1, gridNeighbours_nodup w h i hw, fun j => gridNeighbours_mem w h i j hw hi,
    fun j hj => gridNeighbours_lt w h i j hw hi hj⟩

/-- C3 at the right edge of the first row of the small board: cell 9 of the
`10 × 10` board. -/
theorem C3_neighbour_geometry_witness :
    (GenerateBoard Game.init).board_.length = 10 * 10 ∧
    (GetNeighboursIndices (GenerateBoard Game.init) 9).Nodup ∧
    (∀ j, j ∈ GetNeighboursIndices (GenerateBoard Game.init) 9 ↔
      ∃ x' y' : Nat, x' < 10 ∧ y' < 10 ∧
        |(x' : Int) - ((9 % 10 : Nat) : Int)| ≤ 1 ∧ |(y' : Int) - ((9 / 10 : Nat) : Int)| ≤ 1 ∧
        (x', y') ≠ (9 % 10, 9 / 10) ∧ j = y' * 10 + x') ∧
    (∀ j, j ∈ GetNeighboursIndices (GenerateBoard Game.init) 9 → j < 10 * 10) :=
  C3_neighbour_geometry Game.init 10 10 9 (by decide) (by decide) (by decide) (by decide)
    (by decide) (by decide)

/-- C6: after `SetBoardCellFlags` has run on a board freshly built by
`GenerateBoard`, whatever cells the generator chose, every cell `i` (mine or not)
has `mines_in_vicinity_` equal to the number of indices of `GetNeighboursIndices i`
whose cell holds a mine, a value between 0 and 8. -/
theorem C6_adjacency_counts (g : Game) (rnd : List Nat) (g1 : Game)
    (h : SetBoardCellFlags (GenerateBoard g) rnd = some g1) (i : Nat)
    (hi : i < g1.board_.length) :
    (g1.cell i).mines_in_vicinity_ =
      (((GetNeighboursIndices g1 i).countP (fun n => (g1.cell n).mine_) : Nat) : Int) ∧
    0 ≤ (g1.cell i).mines_in_vicinity_ ∧ (g1.cell i).mines_in_vicinity_ ≤ 8 := by
  obtain ⟨_, _, _, hc⟩ := SetBoardCellFlags_counts (GenerateBoard g) rnd g1
    (fun j => (GenerateBoard_fresh g j).1) h
  have h1 := hc i hi
  have h2 : minesAround g1 i ≤ 8 :=
    le_trans (List.countP_le_length _) (neighbours_length_le g1 i)
  unfold minesAround at h1 h2
  refine ⟨h1, ?_, ?_⟩ <;> rw [h1] <;> omega

/-- C6 on the session built from `rndA`, at cell 18 (three mines around it). -/
theorem C6_adjacency_counts_witness :
    SetBoardCellFlags (GenerateBoard Game.init) rndA = some smallA ∧
    18 < smallA.board_.length ∧
    ((smallA.cell 18).mines_in_vicinity_ =
      (((GetNeighboursIndices smallA 18).countP (fun n => (smallA.cell n).mine_) : Nat) : Int) ∧
    0 ≤ (smallA.cell 18).mines_in_vicinity_ ∧ (smallA.cell 18).mines_in_vicinity_ ≤ 8) :=
  ⟨smallA_new, by decide!,
    C6_adjacency_counts Game.init rndA smallA smallA_new 18 (by decide!)⟩

/-! ## C5: loss -/

theorem cell_map (g : Game) (f : Cell → Cell) (hf : f Cell.new = Cell.new) (i : Nat) :
    ({ g with board_ := g.board_.map f } : Game).cell i = f (g.cell i) := by
  simp only [Game.cell]
  conv_lhs => rw [← hf]
  exact List.getD_map _ _ _

/-- C5: revealing a mine cell `m` with `UncoverCells` sets `game_over_`, marks `m`
exploded, uncovers every mine cell that is not flagged, leaves the `uncovered_`
field of every flagged mine as it was, changes no field of a non-mine cell, and
leaves `mines_left_`, every `flag_` and every `mine_` unchanged. (The premises
"game not over, `m` covered and unflagged" of the claim are not needed.) -/
theorem C5_loss (g : Game) (m : Nat) (hmine : (g.cell m).mine_ = true) :
    (UncoverCells g m).game_over_ = true ∧
    ((UncoverCells g m).cell m).mine_exploded_ = true ∧
    (∀ i, (g.cell i).mine_ = true → (g.cell i).flag_ = false →
      ((UncoverCells g m).cell i).uncovered_ = true) ∧
    (∀ i, (g.cell i).mine_ = true → (g.cell i).flag_ = true →
      ((UncoverCells g m).cell i).uncovered_ = (g.cell i).uncovered_) ∧
    (∀ i, (g.cell i).mine_ = false → (UncoverCells g m).cell i = g.cell i) ∧
    (UncoverCells g m).mines_left_ = g.mines_left_ ∧
    (∀ i, ((UncoverCells g m).cell i).flag_ = (g.cell i).flag_) ∧
    (∀ i, ((UncoverCells g m).cell i).mine_ = (g.cell i).mine_) ∧
    (UncoverCells g m).board_.length = g.board_.length := by
  have hm : m < g.board_.length := by
    by_contra hc
    rw [cell_of_le g m (Nat.le_of_not_lt hc)] at hmine
    exact absurd hmine (by decide)
  have hcell : ∀ i, (UncoverCells g m).cell i =
      (fun c : Cell => if c.mine_ && !c.flag_ then c.Uncover else c)
        (if m = i then { g.cell i with mine_exploded_ := true } else g.cell i) := by
    intro i
    have harg : (({ g with game_over_ := true } : Game).modifyCell m
        (fun c => { c with mine_exploded_ := true })).cell i =
        (if m = i then { g.cell i with mine_exploded_ := true } else g.cell i) := by
      rw [cell_modifyCell]
      by_cases hmi : m = i
      · subst hmi; simp [Game.cell, hm]
      · simp [hmi, Game.cell]
    unfold UncoverCells
    rw [if_pos hmine]
    rw [cell_map _ _ (by rfl), harg]
  refine ⟨?_, ?_, ?_, ?_, ?_, ?_, ?_, ?_, ?_⟩
  · unfold UncoverCells; rw [if_pos hmine]; rfl
  · rw [hcell m]; simp only [if_true]; split_ifs <;> rfl
  · intro i h1 h2
    rw [hcell i]
    by_cases hmi : m = i <;> simp [hmi, h1, h2, Cell.Uncover]
  · intro i h1 h2
    rw [hcell i]
    by_cases hmi : m = i <;> simp [hmi, h1, h2]
  · intro i h1
    rw [hcell i]
    have hmi : m ≠ i := by rintro rfl; rw [h1] at hmine; exact absurd hmine (by decide)
    simp [hmi, h1]
  · unfold UncoverCells; rw [if_pos hmine]; rfl
  · intro i
    rw [hcell i]
    by_cases hmi : m = i <;> simp only [hmi, if_true, if_false] <;> split_ifs <;> rfl
  · intro i
    rw [hcell i]
    by_cases hmi : m = i <;> simp only [hmi, if_true, if_false] <;> split_ifs <;> rfl
  · unfold UncoverCells; rw [if_pos hmine]
    simp [Game.modifyCell]

/-- C5 on the session built from `rndA`: the first reveal hits the mine of cell 9. -/
theorem C5_loss_witness :
    (smallA.cell 9).mine_ = true ∧
    (UncoverCells smallA 9).game_over_ = true ∧
    ((UncoverCells smallA 9).cell 9).mine_exploded_ = true ∧
    (UncoverCells smallA 9).mines_left_ = smallA.mines_left_ :=
  have h := C5_loss smallA 9 (by decide!)
  ⟨by decide!, h.1, h.2.1, h.2.2.2.2.2.1⟩

/-! ## C7: the chord reveal -/

theorem revealUnflagged_calls (ns : List Nat) :
    ∀ g : Game,
      (∀ call, call ∈ (revealUnflagged g ns).2 →
        call.2 ∈ ns ∧ (call.1.cell call.2).flag_ = false) ∧
      (revealUnflagged g ns).1 =
        ((revealUnflagged g ns).2.map Prod.snd).foldl UncoverCells g := by
  induction ns with
  | nil => intro g; simp [revealUnflagged]
  | cons n ns ih =>
    intro g
    by_cases hf : (g.cell n).flag_ = true
    · simp only [revealUnflagged, hf, if_true]
      obtain ⟨h1, h2⟩ := ih g
      exact ⟨fun call hc => ⟨List.mem_cons_of_mem _ (h1 call hc).1, (h1 call hc).2⟩, h2⟩
    · simp only [revealUnflagged, hf]
      obtain ⟨h1, h2⟩ := ih (UncoverCells g n)
      refine ⟨fun call hc => ?_, ?_⟩
      · simp only [Bool.false_eq_true, if_false, List.mem_cons] at hc
        rcases hc with rfl | hc
        · exact ⟨List.mem_cons_self _ _, by simpa using hf⟩
        · exact ⟨List.mem_cons_of_mem _ (h1 call hc).1, (h1 call hc).2⟩
      · simp only [Bool.false_eq_true, if_false, List.map_cons, List.foldl_cons]
        exact h2

/-- C7: `UncoverAvailableNeighbourCells c` calls `UncoverCells` only when the
number of neighbours of `c` with `flag_` set equals `mines_in_vicinity_` of `c`,
and then only on neighbours of `c` whose `flag_` is false when the call is made;
the state it returns is the result of exactly those calls, in order. When the two
numbers differ, in either direction, it makes no call and returns the state it
was given, every field unchanged. (The premise "`c` is uncovered" of the claim is
not needed.) -/
theorem C7_chord_conditional (g : Game) (c : Nat) :
    (∀ call, call ∈ (chordWithCalls g c).2 →
      (flaggedNeighbours g c : Int) = (g.cell c).mines_in_vicinity_ ∧
      call.2 ∈ GetNeighboursIndices g c ∧ (call.1.cell call.2).flag_ = false) ∧
    UncoverAvailableNeighbourCells g c =
      ((chordWithCalls g c).2.map Prod.snd).foldl UncoverCells g ∧
    ((flaggedNeighbours g c : Int) ≠ (g.cell c).mines_in_vicinity_ →
      (chordWithCalls g c).2 = [] ∧ UncoverAvailableNeighbourCells g c = g) := by
  unfold UncoverAvailableNeighbourCells chordWithCalls
  by_cases h : (flaggedNeighbours g c : Int) = (g.cell c).mines_in_vicinity_
  · simp only [h, if_true, ne_eq, not_true_eq_false, false_implies, and_true, true_and]
    obtain ⟨h1, h2⟩ := revealUnflagged_calls (GetNeighboursIndices g c) g
    exact ⟨h1, h2⟩
  · simp [h]

/-- C7 on the session built from `rndA` with cell 8 uncovered (two mines around it)
and a single flag, on cell 7: the chord on 8 changes nothing. -/
theorem C7_chord_conditional_witness :
    (flaggedNeighbours (RightButtonDown (UncoverCells smallA 8) 7) 8 : Int) ≠
      ((RightButtonDown (UncoverCells smallA 8) 7).cell 8).mines_in_vicinity_ ∧
    (chordWithCalls (RightButtonDown (UncoverCells smallA 8) 7) 8).2 = [] ∧
    UncoverAvailableNeighbourCells (RightButtonDown (UncoverCells smallA 8) 7) 8 =
      RightButtonDown (UncoverCells smallA 8) 7 :=
  ⟨by decide!, (C7_chord_conditional (RightButtonDown (UncoverCells smallA 8) 7) 8).2.2
    (by decide!)⟩

/-! ## The stack loop of `UncoverCells` -/

theorem pushCovered_eq (g : Game) (ns : List Nat) :
    ∀ st : List Nat, pushCovered g st ns =
      (ns.filter (fun n => !(g.cell n).uncovered_)).reverse ++ st := by
  induction ns with
  | nil => intro st; simp [pushCovered]
  | cons n ns ih =>
    intro st
    have ih' := fun st => ih st
    unfold pushCovered at ih' ⊢
    simp only [List.foldl_cons]
    rw [ih']
    by_cases hu : (g.cell n).uncovered_ = true
    · simp [hu]
    · simp [hu]

theorem mem_pushCovered (g : Game) (ns st : List Nat) (m : Nat) :
    m ∈ pushCovered g st ns ↔ (m ∈ ns ∧ (g.cell m).uncovered_ = false) ∨ m ∈ st := by
  rw [pushCovered_eq]
  simp [List.mem_filter]

theorem length_pushCovered_le (g : Game) (ns st : List Nat) :
    (pushCovered g st ns).length ≤ st.length + ns.length := by
  rw [pushCovered_eq]
  simp only [List.length_append, List.length_reverse]
  have := List.length_filter_le (fun n => !(g.cell n).uncovered_) ns
  omega

theorem uncoverFrame_refl (g : Game) : UncoverFrame g g :=
  ⟨rfl, rfl, rfl, rfl, fun _ => ⟨rfl, rfl, rfl, rfl, rfl, fun h => h⟩⟩

theorem uncoverFrame_trans {g g1 g2 : Game} (h1 : UncoverFrame g g1) (h2 : UncoverFrame g1 g2) :
    UncoverFrame g g2 := by
  obtain ⟨a1, a2, a3, a4, a5⟩ := h1
  obtain ⟨b1, b2, b3, b4, b5⟩ := h2
  refine ⟨b1.trans a1, b2.trans a2, b3.trans a3, b4.trans a4, fun j => ?_⟩
  obtain ⟨c1, c2, c3, c4, c5, c6⟩ := a5 j
  obtain ⟨d1, d2, d3, d4, d5, d6⟩ := b5 j
  exact ⟨d1.trans c1, d2.trans c2, d3.trans c3, d4.trans c4, d5.trans c5, fun h => d6 (c6 h)⟩

theorem uncoverFrame_neighbours {g g1 : Game} (h : UncoverFrame g g1) (i : Nat) :
    GetNeighboursIndices g1 i = GetNeighboursIndices g i :=
  neighbours_congr g g1 i h.1 (h.2.2.2.2 i).1

theorem uncover_frame (g : Game) (i : Nat) : UncoverFrame g (g.modifyCell i Cell.Uncover) := by
  refine ⟨rfl, rfl, rfl, length_modifyCell _ _ _, fun j => ?_⟩
  rw [cell_modifyCell]
  split_ifs with hc
  · exact ⟨rfl, rfl, rfl, rfl, rfl, fun _ => rfl⟩
  · exact ⟨rfl, rfl, rfl, rfl, rfl, fun h => h⟩

theorem uncover_uncovered (g : Game) (i j : Nat) (hi : i < g.board_.length) :
    ((g.modifyCell i Cell.Uncover).cell j).uncovered_ = true ↔
      j = i ∨ (g.cell j).uncovered_ = true := by
  rw [cell_modifyCell]
  by_cases hij : i = j
  · subst hij; simp [hi, Cell.Uncover]
  · have : ¬ j = i := fun h => hij h.symm
    simp [hij, this]

theorem coveredCount_le (g : Game) : coveredCount g ≤ g.board_.length :=
  List.countP_le_length _

theorem coveredCount_uncover (g : Game) (i : Nat) (hi : i < g.board_.length)
    (hc : (g.cell i).uncovered_ = false) :
    coveredCount (g.modifyCell i Cell.Uncover) + 1 = coveredCount g := by
  unfold coveredCount Game.modifyCell
  simp only
  rw [List.countP_set _ _ _ _ hi]
  have h1 : (g.board_[i]).uncovered_ = false := by rw [← cell_eq_getElem g i hi]; exact hc
  have hpos : 0 < List.countP (fun c => !c.uncovered_) g.board_ := by
    rw [List.countP_pos_iff]
    exact ⟨g.board_[i], List.getElem_mem hi, by simp [h1]⟩
  simp only [h1, Bool.not_false, if_true, Cell.Uncover, Bool.not_true, Bool.false_eq_true,
    if_false]
  omega

theorem floodLoop_sound (g0 : Game) (P : Nat → Prop) (hin : NeighboursInBounds g0)
    (hP : ∀ z n, P z → z < g0.board_.length → (g0.cell z).mines_in_vicinity_ = 0 →
      n ∈ GetNeighboursIndices g0 z → P n) :
    ∀ (fuel : Nat) (g : Game) (st : List Nat),
      UncoverFrame g0 g → (∀ i, i ∈ st → i < g0.board_.length) → (∀ i, i ∈ st → P i) →
      (∀ i, (g.cell i).uncovered_ = true → P i) →
      st.length + 8 * coveredCount g ≤ fuel →
      (floodLoop fuel g st).2 = [] ∧ UncoverFrame g (floodLoop fuel g st).1 ∧
      (∀ i, ((floodLoop fuel g st).1.cell i).uncovered_ = true → P i) := by
  intro fuel
  induction fuel with
  | zero =>
    intro g st _ _ _ hu hm
    have : st = [] := List.length_eq_zero.1 (by omega)
    subst this
    exact ⟨rfl, uncoverFrame_refl g, hu⟩
  | succ fuel ih =>
    intro g st hf hb hp hu hm
    cases st with
    | nil => exact ⟨rfl, uncoverFrame_refl g, hu⟩
    | cons top rest =>
      have hb' : ∀ i, i ∈ rest → i < g0.board_.length :=
        fun i hi => hb i (List.mem_cons_of_mem _ hi)
      have hp' : ∀ i, i ∈ rest → P i := fun i hi => hp i (List.mem_cons_of_mem _ hi)
      have htop : top < g0.board_.length := hb top (List.mem_cons_self _ _)
      have htop' : top < g.board_.length := by rw [hf.2.2.2.1]; exact htop
      simp only [List.length_cons] at hm
      by_cases hc : (g.cell top).uncovered_ = true
      · simp only [floodLoop, hc, if_true]
        exact ih g rest hf hb' hp' hu (by omega)
      · have hc' : (g.cell top).uncovered_ = false := by simpa using hc
        have hcnt := coveredCount_uncover g top htop' hc'
        have hf1 := uncover_frame g top
        have hf01 : UncoverFrame g0 (g.modifyCell top Cell.Uncover) := uncoverFrame_trans hf hf1
        have hu1 : ∀ i, ((g.modifyCell top Cell.Uncover).cell i).uncovered_ = true → P i := by
          intro i hi
          rcases (uncover_uncovered g top i htop').1 hi with rfl | h
          · exact hp _ (List.mem_cons_self _ _)
          · exact hu i h
        simp only [floodLoop, hc, if_false, Bool.false_eq_true]
        by_cases hz : ((g.modifyCell top Cell.Uncover).cell top).mines_in_vicinity_ = 0
        · simp only [hz, ne_eq, not_true_eq_false, if_false]
          have hz0 : (g0.cell top).mines_in_vicinity_ = 0 := by
            rw [← (hf01.2.2.2.2 top).2.2.2.2.1]; exact hz
          have hnb := uncoverFrame_neighbours hf01 top
          have hlen := length_pushCovered_le (g.modifyCell top Cell.Uncover) 
            (GetNeighboursIndices (g.modifyCell top Cell.Uncover) top) rest
          have h8 := neighbours_length_le (g.modifyCell top Cell.Uncover) top
          obtain ⟨r1, r2, r3⟩ := ih (g.modifyCell top Cell.Uncover)
            (pushCovered (g.modifyCell top Cell.Uncover) rest
              (GetNeighboursIndices (g.modifyCell top Cell.Uncover) top)) hf01
            (by
              intro i hi
              rcases (mem_pushCovered _ _ _ _).1 hi with ⟨h1, _⟩ | h1
              · rw [hnb] at h1; exact hin top htop i h1
              · exact hb' i h1)
            (by
              intro i hi
              rcases (mem_pushCovered _ _ _ _).1 hi with ⟨h1, _⟩ | h1
              · rw [hnb] at h1
                exact hP top i (hp _ (List.mem_cons_self _ _)) htop hz0 h1
              · exact hp' i h1)
            hu1 (by omega)
          exact ⟨r1, uncoverFrame_trans hf1 r2, r3⟩
        · simp only [hz, ne_eq, not_false_eq_true, if_true]
          obtain ⟨r1, r2, r3⟩ := ih (g.modifyCell top Cell.Uncover) rest hf01 hb' hp' hu1
            (by omega)
          exact ⟨r1, uncoverFrame_trans hf1 r2, r3⟩

theorem floodClosed_of_frame {g g1 : Game} {st : List Nat} (hf : UncoverFrame g g1)
    (h : ∀ z, (g1.cell z).uncovered_ = true → (g1.cell z).mines_in_vicinity_ = 0 →
      ∀ n, n ∈ GetNeighboursIndices g z → (g1.cell n).uncovered_ = true ∨ n ∈ st) :
    FloodClosed g1 st := by
  intro z hz h0 n hn
  rw [uncoverFrame_neighbours hf z] at hn
  exact h z hz h0 n hn

theorem neighboursInBounds_of_frame {g g1 : Game} (hf : UncoverFrame g g1)
    (h : NeighboursInBounds g) : NeighboursInBounds g1 := by
  intro i hi n hn
  rw [uncoverFrame_neighbours hf i] at hn
  rw [hf.2.2.2.1] at hi ⊢
  exact h i hi n hn

theorem floodLoop_closed :
    ∀ (fuel : Nat) (g : Game) (st : List Nat), NeighboursInBounds g →
      (∀ i, i ∈ st → i < g.board_.length) → FloodClosed g st →
      FloodClosed (floodLoop fuel g st).1 (floodLoop fuel g st).2 := by
  intro fuel
  induction fuel with
  | zero => intro g st _ _ hcl; exact hcl
  | succ fuel ih =>
    intro g st hin hb hcl
    cases st with
    | nil => exact hcl
    | cons top rest =>
      have hb' : ∀ i, i ∈ rest → i < g.board_.length :=
        fun i hi => hb i (List.mem_cons_of_mem _ hi)
      have htop : top < g.board_.length := hb top (List.mem_cons_self _ _)
      by_cases hc : (g.cell top).uncovered_ = true
      · simp only [floodLoop, hc, if_true]
        refine ih g rest hin hb' ?_
        intro z hz h0 n hn
        rcases hcl z hz h0 n hn with h | h
        · exact Or.inl h
        · rcases List.mem_cons.1 h with rfl | h
          · exact Or.inl hc
          · exact Or.inr h
      · have hf1 := uncover_frame g top
        have hlen : (g.modifyCell top Cell.Uncover).board_.length = g.board_.length :=
          length_modifyCell _ _ _
        have hun := fun j => uncover_uncovered g top j htop
        simp only [floodLoop, hc, if_false, Bool.false_eq_true]
        by_cases hz : ((g.modifyCell top Cell.Uncover).cell top).mines_in_vicinity_ = 0
        · simp only [hz, ne_eq, not_true_eq_false, if_false]
          refine ih _ _ (neighboursInBounds_of_frame hf1 hin) ?_ ?_
          · intro i hi
            rcases (mem_pushCovered _ _ _ _).1 hi with ⟨h1, _⟩ | h1
            · exact (neighboursInBounds_of_frame hf1 hin) top (by rw [hlen]; exact htop) i h1
            · rw [hlen]; exact hb' i h1
          · apply floodClosed_of_frame hf1
            intro z hzu h0 n hn
            by_cases hnu : ((g.modifyCell top Cell.Uncover).cell n).uncovered_ = true
            · exact Or.inl hnu
            · right
              rw [mem_pushCovered]
              rcases (hun z).1 hzu with rfl | hzg
              · left
                rw [uncoverFrame_neighbours hf1]
                exact ⟨hn, by simpa using hnu⟩
              · rw [(hf1.2.2.2.2 z).2.2.2.2.1] at h0
                rcases hcl z hzg h0 n hn with h | h
                · exact absurd ((hun n).2 (Or.inr h)) hnu
                · rcases List.mem_cons.1 h with rfl | h
                  · exact absurd ((hun n).2 (Or.inl rfl)) hnu
                  · exact Or.inr h
        · simp only [hz, ne_eq, not_false_eq_true, if_true]
          refine ih _ _ (neighboursInBounds_of_frame hf1 hin) (by intro i hi; rw [hlen]; exact hb' i hi) ?_
          apply floodClosed_of_frame hf1
          intro z hzu h0 n hn
          rcases (hun z).1 hzu with rfl | hzg
          · exact absurd h0 hz
          · rw [(hf1.2.2.2.2 z).2.2.2.2.1] at h0
            rcases hcl z hzg h0 n hn with h | h
            · exact Or.inl ((hun n).2 (Or.inr h))
            · rcases List.mem_cons.1 h with rfl | h
              · exact Or.inl ((hun n).2 (Or.inl rfl))
              · exact Or.inr h

/-! ## The flood fill of `UncoverCells` from a covered board -/

theorem floodReach_lt {g : Game} {s c : Nat} (hin : NeighboursInBounds g)
    (hs : s < g.board_.length) (h : FloodReach g s c) : c < g.board_.length := by
  induction h with
  | start => exact hs
  | step _ _ hn ih => exact hin _ ih _ hn

theorem UncoverCells_covered_board (g : Game) (s : Nat) (hin : NeighboursInBounds g)
    (hs : s < g.board_.length) (hsm : (g.cell s).mine_ = false)
    (hs0 : (g.cell s).mines_in_vicinity_ = 0)
    (hcov : ∀ i, (g.cell i).uncovered_ = false)
    (hnm : ∀ n, n ∈ GetNeighboursIndices g s → (g.cell n).mine_ = false)
    (hne : ∀ n, n ∈ GetNeighboursIndices g s → n ≠ s) (c : Nat) :
    ((UncoverCells g s).cell c).uncovered_ = true ↔ FloodReach g s c := by
  have hf1 := uncover_frame g s
  have hun : ∀ j, ((g.modifyCell s Cell.Uncover).cell j).uncovered_ = true ↔ j = s := by
    intro j
    rw [uncover_uncovered g s j hs]
    simp [hcov j]
  have hnb1 := uncoverFrame_neighbours hf1 s
  have hcnt1 : ((g.modifyCell s Cell.Uncover).cell s).mines_in_vicinity_ = 0 := by
    rw [(hf1.2.2.2.2 s).2.2.2.2.1]; exact hs0
  unfold UncoverCells
  rw [if_neg (by simp [hsm])]
  simp only
  by_cases hfree :
      List.countP (fun c => !c.mine_ && !c.uncovered_) (g.modifyCell s Cell.Uncover).board_ = 0
  · -- the start cell was the last covered cell without a mine
    rw [if_pos hfree]
    have hnone : ∀ n, n ∈ GetNeighboursIndices g s → False := by
      intro n hn
      have hnl : n < (g.modifyCell s Cell.Uncover).board_.length := by
        rw [length_modifyCell]; exact hin s hs n hn
      have hmem : (g.modifyCell s Cell.Uncover).cell n ∈ (g.modifyCell s Cell.Uncover).board_ := by
        rw [cell_eq_getElem _ _ hnl]; exact List.getElem_mem hnl
      have := (List.countP_eq_zero.1 hfree) _ hmem
      rw [cell_modifyCell_ne _ _ _ _ (Ne.symm (hne n hn))] at this
      simp [hnm n hn, hcov n] at this
    have hreach : ∀ c, FloodReach g s c → c = s := by
      intro c hc
      induction hc with
      | start => rfl
      | step _ _ hn ih => subst ih; exact (hnone _ hn).elim
    have hcell : ∀ (g2 : Game),
        (({ g2 with
            game_over_ := true
            mines_left_ := 0
            board_ := g2.board_.map (fun c => if c.mine_ then { c with flag_ := true } else c) } :
          Game).cell c).uncovered_ = (g2.cell c).uncovered_ := by
      intro g2
      have := cell_map { g2 with game_over_ := true, mines_left_ := 0 }
        (fun c => if c.mine_ then { c with flag_ := true } else c) (by rfl) c
      simp only at this
      rw [this]
      have e : ({ g2 with game_over_ := true, mines_left_ := 0 } : Game).cell c = g2.cell c := rfl
      rw [e]
      split_ifs <;> rfl
    rw [hcell, hun c]
    exact ⟨fun h => h ▸ FloodReach.start, hreach c⟩
  · rw [if_neg hfree, if_neg (by simp [hcnt1])]
    have hin1 : NeighboursInBounds (g.modifyCell s Cell.Uncover) := neighboursInBounds_of_frame hf1 hin
    have hst : ∀ i, i ∈ pushCovered (g.modifyCell s Cell.Uncover) []
        (GetNeighboursIndices (g.modifyCell s Cell.Uncover) s) →
        i ∈ GetNeighboursIndices g s := by
      intro i hi
      rcases (mem_pushCovered _ _ _ _).1 hi with ⟨h1, _⟩ | h1
      · rw [hnb1] at h1; exact h1
      · simp at h1
    have hlen := length_pushCovered_le (g.modifyCell s Cell.Uncover)
      (GetNeighboursIndices (g.modifyCell s Cell.Uncover) s) []
    have h8 := neighbours_length_le (g.modifyCell s Cell.Uncover) s
    have hcc := coveredCount_le (g.modifyCell s Cell.Uncover)
    obtain ⟨r1, r2, r3⟩ := floodLoop_sound g (FloodReach g s) hin
      (fun z n hz _ h0 hn => FloodReach.step hz h0 hn)
      (floodFuel (g.modifyCell s Cell.Uncover)) (g.modifyCell s Cell.Uncover)
      (pushCovered (g.modifyCell s Cell.Uncover) []
        (GetNeighboursIndices (g.modifyCell s Cell.Uncover) s))
      hf1 (fun i hi => hin s hs i (hst i hi))
      (fun i hi => FloodReach.step FloodReach.start hs0 (hst i hi))
      (fun i hi => by rw [(hun i).1 hi]; exact FloodReach.start)
      (by unfold floodFuel; simp only [List.length_nil] at hlen; omega)
    have hcl := floodLoop_closed (floodFuel (g.modifyCell s Cell.Uncover))
      (g.modifyCell s Cell.Uncover)
      (pushCovered (g.modifyCell s Cell.Uncover) []
        (GetNeighboursIndices (g.modifyCell s Cell.Uncover) s))
      hin1
      (fun i hi => by rw [length_modifyCell]; exact hin s hs i (hst i hi))
      (by
        intro z hz _ n hn
        rw [(hun z).1 hz] at hn
        by_cases hnu : ((g.modifyCell s Cell.Uncover).cell n).uncovered_ = true
        · exact Or.inl hnu
        · exact Or.inr ((mem_pushCovered _ _ _ _).2 (Or.inl ⟨hn, by simpa using hnu⟩)))
    rw [r1] at hcl
    have hf02 := uncoverFrame_trans hf1 r2
    constructor
    · exact r3 c
    · intro hc
      induction hc with
      | start => exact (r2.2.2.2.2 s).2.2.2.2.2 ((hun s).2 rfl)
      | @step z n _ h0 hn ih =>
        rw [← (hf02.2.2.2.2 z).2.2.2.2.1] at h0
        rw [← uncoverFrame_neighbours hf02 z] at hn
        rcases hcl z ih h0 n hn with h | h
        · exact h
        · simp at h

/-! ## C1: the flood fill result -/

theorem laidOut_of_rects (g : Game) (w h : Nat) (hw : 1 ≤ w) (hh : 1 ≤ h)
    (hN : w * h < 2147483648)
    (hbw : g.board_viewport_.w = 32 * (w : Int)) (hbh : g.board_viewport_.h = 32 * (h : Int))
    (hlay : g.board_.map Cell.rect_ = (GenerateBoard g).board_.map Cell.rect_) :
    LaidOut g w h := by
  obtain ⟨_, _, hl, hr⟩ := GenerateBoard_laidOut g w h hw hh hN hbw hbh
  have hlen : g.board_.length = w * h := by
    have := congrArg List.length hlay
    simp only [List.length_map] at this
    rw [this, hl]
  refine ⟨hbw, hbh, hlen, fun i hi => ?_⟩
  rw [← hr i hi]
  have e1 : (g.cell i).rect_ = (g.board_.map Cell.rect_).getD i Cell.new.rect_ :=
    (List.getD_map _ _ _).symm
  have e2 : ((GenerateBoard g).cell i).rect_ =
      ((GenerateBoard g).board_.map Cell.rect_).getD i Cell.new.rect_ :=
    (List.getD_map _ _ _).symm
  rw [e1, e2, hlay]

theorem neighboursInBounds_of_laidOut (g : Game) (w h : Nat) (hw : 1 ≤ w)
    (hN : w * h < 2147483648) (hlay : LaidOut g w h) : NeighboursInBounds g := by
  intro i hi n hn
  rw [hlay.2.2.1] at hi ⊢
  rw [neighbours_of_laidOut g w h i hw hN hlay hi] at hn
  exact gridNeighbours_lt w h i n hw hi hn

theorem chain_snoc {R : Nat → Nat → Prop} (p : List Nat) :
    ∀ (a z n : Nat), List.Chain R a p → (a :: p).getLast? = some z → R z n →
      List.Chain R a (p ++ [n]) := by
  induction p with
  | nil =>
    intro a z n _ hl hr
    simp only [List.getLast?_singleton, Option.some.injEq] at hl
    subst hl
    exact List.Chain.cons hr List.Chain.nil
  | cons b p ih =>
    intro a z n hc hl hr
    rw [List.getLast?_cons_cons] at hl
    rcases hc with _ | ⟨hab, hbp⟩
    exact List.Chain.cons hab (ih b z n hbp hl hr)

theorem mem_dropLast_or_last (l : List Nat) (z a : Nat) (hl : l.getLast? = some z)
    (ha : a ∈ l) : a ∈ l.dropLast ∨ a = z := by
  have := List.dropLast_append_getLast? z (by rw [hl]; exact rfl)
  rw [← this] at ha
  rcases List.mem_append.1 ha with h | h
  · exact Or.inl h
  · exact Or.inr (by simpa using h)

theorem floodReach_chain {g : Game} {s c : Nat}
    (hgood : ∀ z, FloodReach g s z → (g.cell z).mine_ = false) (h : FloodReach g s c) :
    ∃ p : List Nat, List.Chain (fun a b => b ∈ GetNeighboursIndices g a) s p ∧
      (s :: p).getLast? = some c ∧
      ∀ z, z ∈ (s :: p).dropLast →
        (g.cell z).mine_ = false ∧ (g.cell z).mines_in_vicinity_ = 0 := by
  induction h with
  | start => exact ⟨[], List.Chain.nil, rfl, fun z hz => by simp at hz⟩
  | @step z n hz h0 hn ih =>
    obtain ⟨p, hc, hl, hd⟩ := ih
    refine ⟨p ++ [n], chain_snoc p s z n hc hl hn, ?_, ?_⟩
    · rw [← List.cons_append, List.getLast?_concat]
    · intro a ha
      rw [← List.cons_append, List.dropLast_concat] at ha
      rcases mem_dropLast_or_last (s :: p) z a hl ha with h | h
      · exact hd a h
      · subst h; exact ⟨hgood a hz, h0⟩

theorem floodReach_of_chain {g : Game} {s : Nat} (p : List Nat) :
    ∀ (a c : Nat), FloodReach g s a →
      List.Chain (fun a b => b ∈ GetNeighboursIndices g a) a p →
      (a :: p).getLast? = some c →
      (∀ z, z ∈ (a :: p).dropLast → (g.cell z).mines_in_vicinity_ = 0) →
      FloodReach g s c := by
  induction p with
  | nil =>
    intro a c ha _ hl _
    simp only [List.getLast?_singleton, Option.some.injEq] at hl
    subst hl
    exact ha
  | cons b p ih =>
    intro a c ha hc hl hd
    rw [List.getLast?_cons_cons] at hl
    rcases hc with _ | ⟨hab, hbp⟩
    have h0 : (g.cell a).mines_in_vicinity_ = 0 := hd a (by simp)
    refine ih b c (FloodReach.step ha h0 hab) hbp hl (fun z hz => hd z ?_)
    rw [List.dropLast_cons₂]
    exact List.mem_cons_of_mem _ hz

/-- C1: on a board laid out by `GenerateBoard` (`w × h` cells, `w, h ≥ 1`, the cell
count an `int`) whose `mines_in_vicinity_` fields hold the number of neighbouring
mines, as `SetBoardCellFlags` computes them, with every cell covered, for a
non-mine cell `s` with `mines_in_vicinity_ == 0`: after `UncoverCells s` a cell `c`
is uncovered if and only if it is `s` or the last cell of a chain
`s, p₁, …, pₙ = c` of `GetNeighboursIndices` steps in which every cell before the
last is a non-mine cell with `mines_in_vicinity_ == 0`. -/
theorem C1_flood_fill (g : Game) (w h s : Nat) (hw : 1 ≤ w) (hh : 1 ≤ h)
    (hN : w * h < 2147483648)
    (hbw : g.board_viewport_.w = 32 * (w : Int)) (hbh : g.board_viewport_.h = 32 * (h : Int))
    (hlay : g.board_.map Cell.rect_ = (GenerateBoard g).board_.map Cell.rect_)
    (hcnt : ∀ i, i < w * h → (g.cell i).mines_in_vicinity_ =
      (((GetNeighboursIndices g i).countP (fun n => (g.cell n).mine_) : Nat) : Int))
    (hcov : ∀ i, i < w * h → (g.cell i).uncovered_ = false)
    (hs : s < w * h) (hsm : (g.cell s).mine_ = false)
    (hs0 : (g.cell s).mines_in_vicinity_ = 0) (c : Nat) :
    ((UncoverCells g s).cell c).uncovered_ = true ↔
      (c = s ∨ ∃ p : List Nat,
        List.Chain (fun a b => b ∈ GetNeighboursIndices g a) s p ∧ p.getLast? = some c ∧
        ∀ z, z ∈ (s :: p).dropLast →
          (g.cell z).mine_ = false ∧ (g.cell z).mines_in_vicinity_ = 0) := by
  have hL := laidOut_of_rects g w h hw hh hN hbw hbh hlay
  have hin := neighboursInBounds_of_laidOut g w h hw hN hL
  have hlen : g.board_.length = w * h := hL.2.2.1
  have hcov' : ∀ i, (g.cell i).uncovered_ = false := by
    intro i
    by_cases hi : i < w * h
    · exact hcov i hi
    · rw [cell_of_le g i (by rw [hlen]; omega)]; rfl
  have hzero : ∀ z, z < w * h → (g.cell z).mines_in_vicinity_ = 0 →
      ∀ n, n ∈ GetNeighboursIndices g z → (g.cell n).mine_ = false := by
    intro z hz h0 n hn
    have h1 := hcnt z hz
    rw [h0] at h1
    have h2 : (GetNeighboursIndices g z).countP (fun n => (g.cell n).mine_) = 0 := by
      omega
    have := (List.countP_eq_zero.1 h2) n hn
    simpa using this
  have hgood : ∀ z, FloodReach g s z → (g.cell z).mine_ = false := by
    intro z hz
    induction hz with
    | start => exact hsm
    | @step z n hz h0 hn _ =>
      exact hzero z (by rw [← hlen]; exact floodReach_lt hin (by rw [hlen]; exact hs) hz) h0 n hn
  have hne : ∀ n, n ∈ GetNeighboursIndices g s → n ≠ s := by
    intro n hn
    rw [neighbours_of_laidOut g w h s hw hN hL hs] at hn
    exact gridNeighbours_ne_self w h s n hw hs hn
  rw [UncoverCells_covered_board g s hin (by rw [hlen]; exact hs) hsm hs0 hcov'
    (hzero s hs hs0) hne c]
  constructor
  · intro hr
    obtain ⟨p, hch, hl, hd⟩ := floodReach_chain hgood hr
    cases p with
    | nil =>
      simp only [List.getLast?_singleton, Option.some.injEq] at hl
      exact Or.inl hl.symm
    | cons b p =>
      rw [List.getLast?_cons_cons] at hl
      exact Or.inr ⟨b :: p, hch, hl, hd⟩
  · rintro (rfl | ⟨p, hch, hl, hd⟩)
    · exact FloodReach.start
    · cases p with
      | nil => simp at hl
      | cons b p =>
        exact floodReach_of_chain (b :: p) s c FloodReach.start hch
          (by rw [List.getLast?_cons_cons]; exact hl) (fun z hz => (hd z hz).2)

theorem smallA_layout :
    smallA.board_.map Cell.rect_ = (GenerateBoard smallA).board_.map Cell.rect_ := by decide!

theorem smallA_counts :
    ∀ i, i < 10 * 10 → (smallA.cell i).mines_in_vicinity_ =
      (((GetNeighboursIndices smallA i).countP (fun n => (smallA.cell n).mine_) : Nat) : Int) := by
  decide!

theorem smallA_covered : ∀ i, i < 10 * 10 → (smallA.cell i).uncovered_ = false := by decide!

/-- C1 on the session built from `rndA`: the first reveal, at cell 0, and the
cell 98 beside the mines of the last column. -/
theorem C1_flood_fill_witness :
    ((UncoverCells smallA 0).cell 98).uncovered_ = true ↔
      (98 = 0 ∨ ∃ p : List Nat,
        List.Chain (fun a b => b ∈ GetNeighboursIndices smallA a) 0 p ∧
        p.getLast? = some 98 ∧
        ∀ z, z ∈ (0 :: p).dropLast →
          (smallA.cell z).mine_ = false ∧ (smallA.cell z).mines_in_vicinity_ = 0) :=
  C1_flood_fill smallA 10 10 0 (by decide) (by decide) (by decide) (by decide!) (by decide!)
    smallA_layout smallA_counts smallA_covered (by decide) (by decide!) (by decide!) 98

/-! ## C2, C4, C8, C9, C10: the code at the inputs where it departs from the claims -/

/-- C2 at its failing input: on the fresh session `smallA` a left click on the
covered non-mine cell 0 floods the board, after which no covered non-mine cell
remains, yet `game_over_` is still false, `mines_left_` is still 10 and no mine is
flagged: `UncoverCells` counts the covered non-mine cells before its flood fill
and not after it. -/
theorem C2_flood_fill_win_not_declared :
    smallA.game_over_ = false ∧ (smallA.cell 0).uncovered_ = false ∧
    (smallA.cell 0).mine_ = false ∧
    playEvents smallA [leftClick 0 0] = UncoverCells { smallA with game_started_ := true } 0 ∧
    (UncoverCells smallA 0).board_.countP (fun c => !c.mine_ && !c.uncovered_) = 0 ∧
    (UncoverCells smallA 0).game_over_ = false ∧
    (UncoverCells smallA 0).mines_left_ = 10 ∧
    (UncoverCells smallA 0).board_.countP (fun c => c.mine_ && c.flag_) = 0 := by
  decide!

/-- C4 at its failing input: on the fresh session `smallA`, a right click on cell 2
flags it, and the left-button release on the same cell then uncovers it (and, its
count being 0, 89 further cells); with the flag on the mine of cell 9 instead, the
left-button release explodes the mine and ends the game. -/
theorem C4_flagged_cell_revealed :
    ((playEvents smallA [rightClick 2 0]).cell 2).flag_ = true ∧
    ((playEvents smallA [rightClick 2 0]).cell 2).uncovered_ = false ∧
    (playEvents smallA [rightClick 2 0]).game_over_ = false ∧
    ((playEvents smallA [rightClick 2 0, leftClick 2 0]).cell 2).uncovered_ = true ∧
    (playEvents smallA [rightClick 2 0, leftClick 2 0]).board_.countP (fun c => c.uncovered_) = 90 ∧
    ((playEvents smallA [rightClick 9 0, leftClick 9 0]).cell 9).mine_exploded_ = true ∧
    (playEvents smallA [rightClick 9 0, leftClick 9 0]).game_over_ = true := by
  decide!

/-- C8 at its failing input: on the fresh session `smallA`, reveal cell 8 (two
mines around it, cells 9 and 19), flag the non-mine cells 7 and 17, then chord on
cell 8. The chord calls `UncoverCells` on 9, 18 and 19, the last two with
`game_over_` already set; cells 9 and 19 both end with `mine_exploded_` set and
cell 18 is uncovered after the game is over. -/
theorem C8_chord_explodes_two_mines :
    (playEvents smallA [leftClick 8 0, rightClick 7 0, rightClick 7 1]).game_over_ = false ∧
    ((chordWithCalls (playEvents smallA [leftClick 8 0, rightClick 7 0, rightClick 7 1]) 8).2.map
      (fun call => (call.1.game_over_, call.2))) = [(false, 9), (true, 18), (true, 19)] ∧
    (List.range 100).filter
      (fun i => ((playEvents smallA
        [leftClick 8 0, rightClick 7 0, rightClick 7 1, leftClick 8 0]).cell i).mine_exploded_) =
      [9, 19] ∧
    ((UncoverCells (playEvents smallA [leftClick 8 0, rightClick 7 0, rightClick 7 1]) 9).cell
      18).uncovered_ = false ∧
    ((playEvents smallA
      [leftClick 8 0, rightClick 7 0, rightClick 7 1, leftClick 8 0]).cell 18).uncovered_ = true := by
  decide!

/-- C9 at its failing input: on the fresh session `smallA` (10 mines), flag cell 8
and release the left button on it. The game is not over, no covered cell carries a
flag, and `mines_left_` is 9, not 10 - 0. The same happens when the flood fill
started at cell 0 uncovers the flagged cell 1. -/
theorem C9_counter_off_after_flagged_reveal :
    smallA.mines_left_ = 10 ∧
    (playEvents smallA [rightClick 8 0, leftClick 8 0]).game_over_ = false ∧
    (playEvents smallA [rightClick 8 0, leftClick 8 0]).board_.countP
      (fun c => !c.uncovered_ && c.flag_) = 0 ∧
    (playEvents smallA [rightClick 8 0, leftClick 8 0]).mines_left_ = 9 ∧
    (playEvents smallA [rightClick 1 0, leftClick 0 0]).game_over_ = false ∧
    (playEvents smallA [rightClick 1 0, leftClick 0 0]).board_.countP
      (fun c => !c.uncovered_ && c.flag_) = 0 ∧
    (playEvents smallA [rightClick 1 0, leftClick 0 0]).mines_left_ = 9 := by
  decide!

theorem resetA_eq :
    ResetBoard (tickTimes 59 (playEvents smallA [leftClick 8 0]) 5 50) rndA = some resetA := by
  decide!

/-- C10 at its failing input: the session `smallA` is started by a reveal, runs 59
ticks and is reset. `ResetBoard` leaves `ticks_elapsed_` at 59. The timer then
stays at 0 until the first left click, but one tick after that click
`seconds_elapsed_` is 1, not 1 div 60 = 0, where the newly constructed session
shows 0 after the same click and tick. -/
theorem C10_reset_keeps_ticks :
    (tickTimes 59 (playEvents smallA [leftClick 8 0]) 5 50).ticks_elapsed_ = 59 ∧
    resetA.ticks_elapsed_ = 59 ∧ resetA.seconds_elapsed_ = 0 ∧
    resetA.game_started_ = false ∧ resetA.game_over_ = false ∧
    (tickTimes 100 resetA 5 50).seconds_elapsed_ = 0 ∧
    (playEvents resetA [leftClick 8 0]).game_over_ = false ∧
    (tickTimes 1 (playEvents resetA [leftClick 8 0]) 5 50).seconds_elapsed_ = 1 ∧
    (tickTimes 1 (playEvents smallA [leftClick 8 0]) 5 50).seconds_elapsed_ = 0 := by
  decide!

/-! ## C12: a safe reveal uncovers no mine -/

theorem cell_winFlags (g : Game) (c : Nat) :
    (({ g with
        game_over_ := true
        mines_left_ := 0
        board_ := g.board_.map (fun c => if c.mine_ then { c with flag_ := true } else c) } :
      Game).cell c) =
      (if (g.cell c).mine_ then { g.cell c with flag_ := true } else g.cell c) := by
  have := cell_map { g with game_over_ := true, mines_left_ := 0 }
    (fun c => if c.mine_ then { c with flag_ := true } else c) (by rfl) c
  simp only at this
  rw [this]
  rfl

theorem UncoverCells_safe (g : Game) (s : Nat) (hin : NeighboursInBounds g)
    (hs : s < g.board_.length) (hsm : (g.cell s).mine_ = false)
    (hzero : ∀ z, z < g.board_.length → (g.cell z).mines_in_vicinity_ = 0 →
      ∀ n, n ∈ GetNeighboursIndices g z → (g.cell n).mine_ = false) :
    (∀ c, ((UncoverCells g s).cell c).uncovered_ = true →
      (g.cell c).uncovered_ = true ∨ (g.cell c).mine_ = false) ∧
    (∀ c, ((UncoverCells g s).cell c).mine_exploded_ = (g.cell c).mine_exploded_) ∧
    (∀ c, ((UncoverCells g s).cell c).mine_ = (g.cell c).mine_) := by
  have hf1 := uncover_frame g s
  have hun := fun j => uncover_uncovered g s j hs
  have hu1 : ∀ c, ((g.modifyCell s Cell.Uncover).cell c).uncovered_ = true →
      (g.cell c).uncovered_ = true ∨ (g.cell c).mine_ = false := by
    intro c hc
    rcases (hun c).1 hc with rfl | h
    · exact Or.inr hsm
    · exact Or.inl h
  unfold UncoverCells
  rw [if_neg (by simp [hsm])]
  simp only
  by_cases hfree :
      List.countP (fun c => !c.mine_ && !c.uncovered_) (g.modifyCell s Cell.Uncover).board_ = 0
  · rw [if_pos hfree]
    refine ⟨fun c hc => ?_, fun c => ?_, fun c => ?_⟩
    · rw [cell_winFlags] at hc
      apply hu1 c
      revert hc
      split_ifs <;> exact fun h => h
    · rw [cell_winFlags, ← (hf1.2.2.2.2 c).2.2.2.1]
      split_ifs <;> rfl
    · rw [cell_winFlags, ← (hf1.2.2.2.2 c).2.2.1]
      split_ifs <;> rfl
  · rw [if_neg hfree]
    by_cases hz : ((g.modifyCell s Cell.Uncover).cell s).mines_in_vicinity_ = 0
    · rw [if_neg (by simp [hz])]
      have hs0 : (g.cell s).mines_in_vicinity_ = 0 := by
        rw [← (hf1.2.2.2.2 s).2.2.2.2.1]; exact hz
      have hst : ∀ i, i ∈ pushCovered (g.modifyCell s Cell.Uncover) []
          (GetNeighboursIndices (g.modifyCell s Cell.Uncover) s) →
          i ∈ GetNeighboursIndices g s := by
        intro i hi
        rcases (mem_pushCovered _ _ _ _).1 hi with ⟨h1, _⟩ | h1
        · rw [uncoverFrame_neighbours hf1 s] at h1; exact h1
        · simp at h1
      have hlen := length_pushCovered_le (g.modifyCell s Cell.Uncover)
        (GetNeighboursIndices (g.modifyCell s Cell.Uncover) s) []
      have h8 := neighbours_length_le (g.modifyCell s Cell.Uncover) s
      have hcc := coveredCount_le (g.modifyCell s Cell.Uncover)
      obtain ⟨_, r2, r3⟩ := floodLoop_sound g
        (fun i => (g.cell i).uncovered_ = true ∨ (g.cell i).mine_ = false) hin
        (fun z n _ hzl h0 hn => Or.inr (hzero z hzl h0 n hn))
        (floodFuel (g.modifyCell s Cell.Uncover)) (g.modifyCell s Cell.Uncover)
        (pushCovered (g.modifyCell s Cell.Uncover) []
          (GetNeighboursIndices (g.modifyCell s Cell.Uncover) s))
        hf1 (fun i hi => hin s hs i (hst i hi))
        (fun i hi => Or.inr (hzero s hs hs0 i (hst i hi)))
        hu1
        (by unfold floodFuel; simp only [List.length_nil] at hlen; omega)
      have hf02 := uncoverFrame_trans hf1 r2
      exact ⟨r3, fun c => (hf02.2.2.2.2 c).2.2.2.1, fun c => (hf02.2.2.2.2 c).2.2.1⟩
    · rw [if_pos (by simpa using hz)]
      exact ⟨hu1, fun c => (hf1.2.2.2.2 c).2.2.2.1, fun c => (hf1.2.2.2.2 c).2.2.1⟩

theorem UncoverCells_stack_emptied (g : Game) (s : Nat) (hin : NeighboursInBounds g)
    (hs : s < g.board_.length) :
    (floodLoop (floodFuel (g.modifyCell s Cell.Uncover)) (g.modifyCell s Cell.Uncover)
      (pushCovered (g.modifyCell s Cell.Uncover) []
        (GetNeighboursIndices (g.modifyCell s Cell.Uncover) s))).2 = [] := by
  have hf1 := uncover_frame g s
  have hst : ∀ i, i ∈ pushCovered (g.modifyCell s Cell.Uncover) []
      (GetNeighboursIndices (g.modifyCell s Cell.Uncover) s) →
      i ∈ GetNeighboursIndices g s := by
    intro i hi
    rcases (mem_pushCovered _ _ _ _).1 hi with ⟨h1, _⟩ | h1
    · rw [uncoverFrame_neighbours hf1 s] at h1; exact h1
    · simp at h1
  have hlen := length_pushCovered_le (g.modifyCell s Cell.Uncover)
    (GetNeighboursIndices (g.modifyCell s Cell.Uncover) s) []
  have h8 := neighbours_length_le (g.modifyCell s Cell.Uncover) s
  have hcc := coveredCount_le (g.modifyCell s Cell.Uncover)
  exact (floodLoop_sound g (fun _ => True) hin (fun _ _ _ _ _ _ => trivial)
    (floodFuel (g.modifyCell s Cell.Uncover)) (g.modifyCell s Cell.Uncover)
    (pushCovered (g.modifyCell s Cell.Uncover) []
      (GetNeighboursIndices (g.modifyCell s Cell.Uncover) s))
    hf1 (fun i hi => hin s hs i (hst i hi)) (fun _ _ => trivial) (fun _ _ => trivial)
    (by unfold floodFuel; simp only [List.length_nil] at hlen; omega)).1

/-- C12: on a board laid out by `GenerateBoard` (`w × h` cells, `w, h ≥ 1`, the cell
count an `int`) whose `mines_in_vicinity_` fields hold the number of neighbouring
mines, as `SetBoardCellFlags` computes them, in any state of the `uncovered_` and
`flag_` fields, for a non-mine start cell `s`: every cell that `UncoverCells s`
takes from covered to uncovered is a non-mine cell, no `mine_exploded_` and no
`mine_` field changes, and the stack loop of the flood fill, started as
`UncoverCells` starts it, has emptied its stack when it stops. -/
theorem C12_safe_reveal_uncovers_no_mine (g : Game) (w h s : Nat) (hw : 1 ≤ w) (hh : 1 ≤ h)
    (hN : w * h < 2147483648)
    (hbw : g.board_viewport_.w = 32 * (w : Int)) (hbh : g.board_viewport_.h = 32 * (h : Int))
    (hlay : g.board_.map Cell.rect_ = (GenerateBoard g).board_.map Cell.rect_)
    (hcnt : ∀ i, i < w * h → (g.cell i).mines_in_vicinity_ =
      (((GetNeighboursIndices g i).countP (fun n => (g.cell n).mine_) : Nat) : Int))
    (hs : s < w * h) (hsm : (g.cell s).mine_ = false) :
    (∀ c, (g.cell c).uncovered_ = false → ((UncoverCells g s).cell c).uncovered_ = true →
      (g.cell c).mine_ = false ∧ ((UncoverCells g s).cell c).mine_ = false) ∧
    (∀ c, ((UncoverCells g s).cell c).mine_exploded_ = (g.cell c).mine_exploded_) ∧
    (floodLoop (floodFuel (g.modifyCell s Cell.Uncover)) (g.modifyCell s Cell.Uncover)
      (pushCovered (g.modifyCell s Cell.Uncover) []
        (GetNeighboursIndices (g.modifyCell s Cell.Uncover) s))).2 = [] := by
  have hL := laidOut_of_rects g w h hw hh hN hbw hbh hlay
  have hin := neighboursInBounds_of_laidOut g w h hw hN hL
  have hlen : g.board_.length = w * h := hL.2.2.1
  have hzero : ∀ z, z < g.board_.length → (g.cell z).mines_in_vicinity_ = 0 →
      ∀ n, n ∈ GetNeighboursIndices g z → (g.cell n).mine_ = false := by
    intro z hz h0 n hn
    have h1 := hcnt z (by rw [← hlen]; exact hz)
    rw [h0] at h1
    have h2 : (GetNeighboursIndices g z).countP (fun n => (g.cell n).mine_) = 0 := by
      omega
    have := (List.countP_eq_zero.1 h2) n hn
    simpa using this
  obtain ⟨h1, h2, h3⟩ := UncoverCells_safe g s hin (by rw [hlen]; exact hs) hsm hzero
  refine ⟨fun c hc hu => ?_, h2, UncoverCells_stack_emptied g s hin (by rw [hlen]; exact hs)⟩
  rcases h1 c hu with h | h
  · rw [hc] at h; exact absurd h (by decide)
  · exact ⟨h, by rw [h3 c]; exact h⟩

/-- C12 on the session built from `rndA`, for the reveal of cell 0. -/
theorem C12_safe_reveal_uncovers_no_mine_witness :
    (∀ c, (smallA.cell c).uncovered_ = false →
      ((UncoverCells smallA 0).cell c).uncovered_ = true →
      (smallA.cell c).mine_ = false ∧ ((UncoverCells smallA 0).cell c).mine_ = false) ∧
    (∀ c, ((UncoverCells smallA 0).cell c).mine_exploded_ = (smallA.cell c).mine_exploded_) ∧
    (floodLoop (floodFuel (smallA.modifyCell 0 Cell.Uncover)) (smallA.modifyCell 0 Cell.Uncover)
      (pushCovered (smallA.modifyCell 0 Cell.Uncover) []
        (GetNeighboursIndices (smallA.modifyCell 0 Cell.Uncover) 0))).2 = [] :=
  C12_safe_reveal_uncovers_no_mine smallA 10 10 0 (by decide) (by decide) (by decide)
    (by decide!) (by decide!) smallA_layout smallA_counts (by decide) (by decide!)

/-! ## C11: the pointer position and the cell index -/

theorem GetMousePositionIndex_inside (g : Game) (w h : Nat) (mx my : Int)
    (hN : w * h < 2147483648)
    (hbw : g.board_viewport_.w = 32 * (w : Int)) (hbh : g.board_viewport_.h = 32 * (h : Int))
    (hih : g.info_viewport_.h = 100)
    (hx0 : 0 ≤ mx) (hx1 : mx < 32 * (w : Int)) (hy0 : 100 ≤ my)
    (hy1 : my < 100 + 32 * (h : Int)) :
    GetMousePositionIndex g mx my = some ((my - 100).toNat / 32 * w + mx.toNat / 32) ∧
    mx.toNat / 32 < w ∧ (my - 100).toNat / 32 < h ∧
    (my - 100).toNat / 32 * w + mx.toNat / 32 < w * h := by
  obtain ⟨h', rfl⟩ : ∃ h', h = h' + 1 := ⟨h - 1, by omega⟩
  have hw : 1 ≤ w := by omega
  have hwh : w * (h' + 1) = h' * w + w := by rw [Nat.mul_comm, Nat.succ_mul]
  have hhw : h' ≤ h' * w := Nat.le_mul_of_pos_right h' hw
  have hx : mx.toNat / 32 < w := by omega
  have hy : (my - 100).toNat / 32 ≤ h' := by omega
  have hyw : (my - 100).toNat / 32 * w ≤ h' * w := Nat.mul_le_mul_right w hy
  refine ⟨?_, hx, by omega, by omega⟩
  unfold GetMousePositionIndex
  rw [if_neg (by rw [hbw, hbh, hih]; omega)]
  simp only [hbw, hih, Option.some.injEq]
  have e1 : toSizeT mx = mx.toNat := by unfold toSizeT; omega
  have e2 : toSizeT (my - 100) = (my - 100).toNat := by unfold toSizeT; omega
  have e3 : toSizeT (32 * (w : Int)) / 32 = w := by unfold toSizeT; omega
  rw [e1, e2, e3]
  unfold szAdd szMul SIZE_MOD
  rw [Nat.mod_eq_of_lt (by omega), Nat.mod_eq_of_lt (by omega)]

/-- C11 at its failing inputs: on the small board (`10 × 10` cells, viewport
`320 × 320`, info bar of height 100) `GetMousePositionIndex` accepts the pointer
column `mx = 320` and the pointer row `my = 420`, one pixel past the grid on the
right and below. At `(320, 105)` it returns the index 10, built from the column
`320 div 32 = 10`, which is not below `w = 10` (the index is the first cell of the
next row); at `(5, 420)` it returns 100, which is not below `w * h = 100`; at
`(320, 420)` it returns 110. One pixel further, at 321 and 421, it returns
false. -/
theorem C11_pointer_index_past_the_grid :
    smallA.board_viewport_.w = 320 ∧ smallA.board_viewport_.h = 320 ∧
    smallA.info_viewport_.h = 100 ∧ smallA.board_.length = 100 ∧
    GetMousePositionIndex smallA 320 105 = some 10 ∧
    GetMousePositionIndex smallA 5 420 = some 100 ∧
    GetMousePositionIndex smallA 320 420 = some 110 ∧
    GetMousePositionIndex smallA 321 105 = none ∧
    GetMousePositionIndex smallA 5 421 = none := by
  decide!

end Minesweeper
